import Mathlib

/-!
# SudokuMaker: a shallow embedding of `sudoku_maker.go`

The Go program fills a 9x9 grid by randomised backtracking (`solve`), clears a
number of cells (`generatePlayableSudoku`) and renders the grids as HTML.

Modelling decisions:

* `[9][9]int` is `Fin 9 → Fin 9 → Int`; `[9]map[int]bool` is `Fin 9 → GoMap`.
  An index expression of the source whose index is a run-time `int` is checked
  against the bound, and the failing branch is the run-time fault
  `Fault.indexOutOfRange`.
* The `row`, `col` and loop indices of the source start at `0` and are only
  incremented, so they are natural numbers.  Cell values and map keys are `Int`.
* `rand.Shuffle` is an oracle `sh : Nat → List Int → List Int`; the `t`-th
  shuffle of a run returns `sh t nums`, and the number of shuffles done so far
  is threaded through `solve`.  `rand.Intn(boardSize)` yields a `Fin 9`; the
  values drawn by `generatePlayableSudoku` are the list `picks`.
* The recursion of `solve` is bounded by a `fuel` argument; running out of it
  is the result `Fault.outOfFuel`.
-/

namespace SudokuMaker

/-! ## Constants and data model -/

abbrev boardSize : Nat := 9
abbrev subgridSize : Nat := 3
abbrev defaultEmptyCells : Int := 40

/-- A Go `map[int]bool`: `none` is an absent key. -/
abbrev GoMap := Int → Option Bool

namespace GoMap

/-- The map returned by `make(map[int]bool)`. -/
def empty : GoMap := fun _ => none

/-- The assignment `m[k] = v`. -/
def set (m : GoMap) (k : Int) (v : Bool) : GoMap :=
  fun x => if x = k then some v else m x

/-- The statement `delete(m, k)`. -/
def delete (m : GoMap) (k : Int) : GoMap :=
  fun x => if x = k then none else m x

/-- The expression `m[k]`: the stored value, `false` for an absent key. -/
def get (m : GoMap) (k : Int) : Bool := (m k).getD false

/-- Whether `k` is a key of `m` (the `ok` of `_, ok := m[k]`). -/
def hasKey (m : GoMap) (k : Int) : Bool := (m k).isSome

end GoMap

/-- The struct `SudokuBoard`. -/
structure SudokuBoard where
  Board : Fin 9 → Fin 9 → Int
  RowNums : Fin 9 → GoMap
  ColNums : Fin 9 → GoMap

/-- The zero value `var sudokuPuzzle SudokuBoard`: every cell is `0`.  The maps
of the zero value are nil; they read as empty and `initialize` replaces each of
them before anything is written to it. -/
def zeroBoard : SudokuBoard :=
  { Board := fun _ _ => 0, RowNums := fun _ => GoMap.empty, ColNums := fun _ => GoMap.empty }

/-- The assignment `a[i] = v` on an array of length 9. -/
def setAt {α : Type} (a : Fin 9 → α) (i : Fin 9) (v : α) : Fin 9 → α :=
  fun x => if x = i then v else a x

/-- The assignment `s.Board[i][j] = v`. -/
def setCell (b : Fin 9 → Fin 9 → Int) (i j : Fin 9) (v : Int) : Fin 9 → Fin 9 → Int :=
  fun x y => if x = i ∧ y = j then v else b x y

/-! ## `initialize` -/

/-- The inner loop of `initialize`, `for j := 1; j <= boardSize; j++`, at row and
column `i`; `js` is the list of the values of `j` still to run. -/
def initializeInner (i : Fin 9) : List Int → SudokuBoard → SudokuBoard
  | [], s => s
  | j :: js, s =>
    let s1 := { s with RowNums := setAt s.RowNums i ((s.RowNums i).set j true) }
    let s2 := { s1 with ColNums := setAt s1.ColNums i ((s1.ColNums i).set j true) }
    initializeInner i js s2

/-- The outer loop of `initialize`, `for i := 0; i < boardSize; i++`. -/
def initializeOuter : List (Fin 9) → SudokuBoard → SudokuBoard
  | [], s => s
  | i :: is, s =>
    let s1 := { s with RowNums := setAt s.RowNums i GoMap.empty }
    let s2 := { s1 with ColNums := setAt s1.ColNums i GoMap.empty }
    initializeOuter is (initializeInner i [1, 2, 3, 4, 5, 6, 7, 8, 9] s2)

/-- The method `initialize` (the name is reserved in Lean, hence `initializeBoard`). -/
def initializeBoard (s : SudokuBoard) : SudokuBoard :=
  initializeOuter [0, 1, 2, 3, 4, 5, 6, 7, 8] s

/-! ## The search: `intersection`, `isValid`, `solve` -/

/-- A run-time fault of the embedding: an index expression out of range (a Go
panic), or the recursion bound of the embedding reached. -/
inductive Fault where
  | indexOutOfRange
  | outOfFuel
  deriving DecidableEq, Repr

/-- The values of `num` in the loop `for num := 1; num <= boardSize; num++`. -/
def digits : List Int := [1, 2, 3, 4, 5, 6, 7, 8, 9]

/-- The method `intersection`: the digits `num` of `1..9`, in ascending order,
with `slice1[num] && slice2[num]`. -/
def intersection (slice1 slice2 : GoMap) : List Int :=
  digits.filter (fun num => slice1.get num && slice2.get num)

/-- The expression `s.Board[r][c]` for run-time indices `r` and `c`. -/
def cellAt (s : SudokuBoard) (r c : Nat) : Option Int :=
  if h : r < 9 ∧ c < 9 then some (s.Board ⟨r, h.1⟩ ⟨c, h.2⟩) else none

/-- The pairs `(i, j)` of the nested loops of `isValid`, in the order they run. -/
def subgridOffsets : List (Nat × Nat) :=
  [(0, 0), (0, 1), (0, 2), (1, 0), (1, 1), (1, 2), (2, 0), (2, 1), (2, 2)]

/-- The nested loops of `isValid`: `some false` at the first cell of the subgrid
equal to `num`, `some true` when there is none, `none` on an index fault. -/
def scanSubgrid (s : SudokuBoard) (num : Int) (subgridStartRow subgridStartCol : Nat) :
    List (Nat × Nat) → Option Bool
  | [] => some true
  | (i, j) :: rest =>
    match cellAt s (subgridStartRow + i) (subgridStartCol + j) with
    | none => none
    | some v =>
      if v = num then some false
      else scanSubgrid s num subgridStartRow subgridStartCol rest

/-- The method `isValid`. -/
def isValid (s : SudokuBoard) (num : Int) (row col : Nat) : Except Fault Bool :=
  let subgridRow := row / subgridSize
  let subgridCol := col / subgridSize
  let subgridStartRow := subgridRow * subgridSize
  let subgridStartCol := subgridCol * subgridSize
  match scanSubgrid s num subgridStartRow subgridStartCol subgridOffsets with
  | none => .error .indexOutOfRange
  | some false => .ok false
  | some true =>
    if hr : row < 9 then
      if (s.RowNums ⟨row, hr⟩).get num then
        if hc : col < 9 then .ok ((s.ColNums ⟨col, hc⟩).get num)
        else .error .indexOutOfRange
      else .ok false
    else .error .indexOutOfRange

/-- Lines 89-91 of the source: `s.Board[row][col] = num`, `delete(s.RowNums[row], num)`,
`delete(s.ColNums[col], num)`. -/
def place (s : SudokuBoard) (row col : Fin 9) (num : Int) : SudokuBoard :=
  { Board := setCell s.Board row col num
    RowNums := setAt s.RowNums row ((s.RowNums row).delete num)
    ColNums := setAt s.ColNums col ((s.ColNums col).delete num) }

/-- Lines 97-99 of the source: `s.Board[row][col] = 0`, `s.RowNums[row][num] = true`,
`s.ColNums[col][num] = true`. -/
def unplace (s : SudokuBoard) (row col : Fin 9) (num : Int) : SudokuBoard :=
  { Board := setCell s.Board row col 0
    RowNums := setAt s.RowNums row ((s.RowNums row).set num true)
    ColNums := setAt s.ColNums col ((s.ColNums col).set num true) }

/-- What a call of `solve` that returns leaves behind: the returned boolean, the
receiver `*s`, the number of shuffles done so far, and (not in the source) the
log of the receiver at the entry of every call, after every undo and at every
return, in the order they happen. -/
structure SolveResult where
  found : Bool
  s : SudokuBoard
  t : Nat
  trace : List SudokuBoard

/-- The loop `for _, num := range availableNums` of `solve` at the cell
`(row, col)`, followed by `return false`; `next` is the recursive call
`s.solve(row+1, col)`.  The indices are those `solve` has already used on
`s.RowNums[row]` and `s.ColNums[col]`, hence in range. -/
def tryNums (next : SudokuBoard → Nat → Except Fault SolveResult) (row col : Fin 9) :
    List Int → SudokuBoard → Nat → Except Fault SolveResult
  | [], s, t => .ok ⟨false, s, t, [s]⟩
  | num :: rest, s, t =>
    match isValid s num row.val col.val with
    | .error e => .error e
    | .ok false => tryNums next row col rest s t
    | .ok true =>
      match next (place s row col num) t with
      | .error e => .error e
      | .ok r =>
        if r.found then .ok ⟨true, r.s, r.t, r.trace ++ [r.s]⟩
        else
          match tryNums next row col rest (unplace r.s row col num) r.t with
          | .error e => .error e
          | .ok r2 =>
            .ok ⟨r2.found, r2.s, r2.t, r.trace ++ unplace r.s row col num :: r2.trace⟩

/-- The method `solve`, with the shuffle oracle `sh`, at most `fuel` nested
calls, and `t` shuffles done before the call. -/
def solve (sh : Nat → List Int → List Int) :
    Nat → SudokuBoard → Nat → Nat → Nat → Except Fault SolveResult
  | 0, _, _, _, _ => .error .outOfFuel
  | fuel + 1, s, t, row, col =>
    if row = boardSize ∧ col + 1 = boardSize then .ok ⟨true, s, t, [s]⟩
    else
      let row1 := if row = boardSize then 0 else row
      let col1 := if row = boardSize then col + 1 else col
      if h : row1 < 9 ∧ col1 < 9 then
        let availableNums := intersection (s.RowNums ⟨row1, h.1⟩) (s.ColNums ⟨col1, h.2⟩)
        let nums := sh t availableNums
        match tryNums (fun s1 t1 => solve sh fuel s1 t1 (row1 + 1) col1)
            ⟨row1, h.1⟩ ⟨col1, h.2⟩ nums s (t + 1) with
        | .error e => .error e
        | .ok r => .ok ⟨r.found, r.s, r.t, s :: r.trace⟩
      else .error .indexOutOfRange

/-- The method `generateSolvedSudoku`: `s.solve(0, 0)`. -/
def generateSolvedSudoku (sh : Nat → List Int → List Int) (fuel : Nat) (s : SudokuBoard)
    (t : Nat) : Except Fault SolveResult :=
  solve sh fuel s t 0 0

/-- Whether a call returned (no fault). -/
def returned (x : Except Fault SolveResult) : Bool :=
  match x with
  | .ok _ => true
  | .error _ => false

/-- What a call that returned left behind. -/
def resultOf (x : Except Fault SolveResult) : SolveResult :=
  match x with
  | .ok r => r
  | .error _ => ⟨false, zeroBoard, 0, []⟩

/-! ## `generatePlayableSudoku` -/

/-- The loop `for count := 0; count < clearedCells; { ... }` of
`generatePlayableSudoku`, entered with the given value of `count`.  Each turn
draws `i` and `j` from the head of `picks`.  The result is the receiver and the
picks not drawn when the loop condition fails, and `none` when the picks run out
with the loop still running. -/
def clearLoop (clearedCells : Int) :
    List (Fin 9 × Fin 9) → Int → SudokuBoard → Option (SudokuBoard × List (Fin 9 × Fin 9))
  | [], count, s => if count < clearedCells then none else some (s, [])
  | (i, j) :: picks, count, s =>
    if count < clearedCells then
      if s.Board i j ≠ 0 then
        clearLoop clearedCells picks (count + 1) { s with Board := setCell s.Board i j 0 }
      else clearLoop clearedCells picks count s
    else some (s, (i, j) :: picks)

/-- The method `generatePlayableSudoku`. -/
def generatePlayableSudoku (clearedCells : Int) (picks : List (Fin 9 × Fin 9))
    (s : SudokuBoard) : Option (SudokuBoard × List (Fin 9 × Fin 9)) :=
  clearLoop clearedCells picks 0 s

/-! ## `setCellsToClear` -/

/-- The decimal digits of `strconv.Atoi`, most significant first, folded into
`n`; `none` at a character that is no digit. -/
def atoiDigits : List Char → Nat → Option Nat
  | [], n => some n
  | ch :: rest, n =>
    if '0' ≤ ch ∧ ch ≤ '9' then atoiDigits rest (n * 10 + (ch.toNat - '0'.toNat)) else none

/-- The function `strconv.Atoi` of the Go standard library on a 64-bit
platform, after its documentation: an optional sign, then one or more decimal
digits, and a value that fits `int`; `none` stands for a non-nil `err`. -/
def Atoi (str : String) : Option Int :=
  match str.toList with
  | [] => none
  | ch :: rest =>
    let neg := ch = '-'
    let body := if ch = '-' ∨ ch = '+' then rest else ch :: rest
    if body = [] then none
    else
      match atoiDigits body 0 with
      | none => none
      | some n =>
        let v : Int := if neg then -(n : Int) else (n : Int)
        if -(2 : Int) ^ 63 ≤ v ∧ v < (2 : Int) ^ 63 then some v else none

/-- The function `setCellsToClear`; `args` is `os.Args`. -/
def setCellsToClear (args : List String) : Int :=
  if args.length = 2 then
    match Atoi (args.getD 1 "") with
    | none => defaultEmptyCells
    | some cellsToClear =>
      if cellsToClear < 0 ∨ cellsToClear > boardSize * boardSize then defaultEmptyCells
      else cellsToClear
  else defaultEmptyCells

/-! ## `main` -/

/-- The loop `for i := 0; i < 3; i++` of `main`; the first list holds the values
of `i` still to run.  Appending `sudokuPuzzle` to the slice copies the struct:
the copy has its own `Board`, and shares the maps, which nothing writes to after
the search.  The boolean returned by `generateSolvedSudoku` is dropped, as in the
source.  `none` when a call does not return. -/
def mainLoop (sh : Nat → List Int → List Int) (fuel : Nat) (clearedCells : Int) :
    List Nat → Nat → List (Fin 9 × Fin 9) → List SudokuBoard → Option (List SudokuBoard)
  | [], _, _, sudokuPuzzles => some sudokuPuzzles
  | _ :: is, t, picks, sudokuPuzzles =>
    match generateSolvedSudoku sh fuel (initializeBoard zeroBoard) t with
    | .error _ => none
    | .ok r =>
      match generatePlayableSudoku clearedCells picks r.s with
      | none => none
      | some (played, picks1) =>
        mainLoop sh fuel clearedCells is r.t picks1 (sudokuPuzzles ++ [r.s] ++ [played])

/-- The part of `main` up to the call of `generateHTML`: the slice
`sudokuPuzzles` handed to it. -/
def mainPuzzles (args : List String) (sh : Nat → List Int → List Int) (fuel : Nat)
    (picks : List (Fin 9 × Fin 9)) : Option (List SudokuBoard) :=
  mainLoop sh fuel (setCellsToClear args) [0, 1, 2] 0 picks []

/-! ## Predicates of the specification -/

/-- The place of the cell `(r, c)` in the order `solve` visits the cells:
`solve(row+1, col)` goes down a column and wraps to the top of the next one. -/
def cellPos (r c : Nat) : Nat := c * 9 + r

/-- Every cell `solve` visits at or after place `k` is empty. -/
def EmptyFrom (s : SudokuBoard) (k : Nat) : Prop :=
  ∀ r c : Fin 9, k ≤ cellPos r.val c.val → s.Board r c = 0

/-- Every cell `solve` visits before place `k` is filled. -/
def FilledBefore (s : SudokuBoard) (k : Nat) : Prop :=
  ∀ r c : Fin 9, cellPos r.val c.val < k → s.Board r c ≠ 0

/-- The tracker invariant: a digit is in the set of a row (column) iff no cell
of the row (column) holds it.  Membership is the lookup `m[d]` the source uses. -/
def TrackerInv (s : SudokuBoard) : Prop :=
  ∀ (i : Fin 9) (d : Int), 1 ≤ d → d ≤ 9 →
    ((s.RowNums i).get d = true ↔ ∀ c : Fin 9, s.Board i c ≠ d) ∧
    ((s.ColNums i).get d = true ↔ ∀ r : Fin 9, s.Board r i ≠ d)

/-- The cells `(r1, c1)` and `(r2, c2)` lie in the same 3x3 subgrid. -/
def sameSubgrid (r1 c1 r2 c2 : Fin 9) : Prop :=
  r1.val / 3 = r2.val / 3 ∧ c1.val / 3 = c2.val / 3

/-- The grid invariant: a cell is empty or holds a digit of `1..9`, and a filled
cell shares its value with no other cell of its row, column or subgrid. -/
def GridValid (b : Fin 9 → Fin 9 → Int) : Prop :=
  (∀ r c : Fin 9, b r c = 0 ∨ (1 ≤ b r c ∧ b r c ≤ 9)) ∧
  (∀ r1 c1 r2 c2 : Fin 9, b r1 c1 ≠ 0 → b r1 c1 = b r2 c2 →
    (r1 = r2 ∨ c1 = c2 ∨ sameSubgrid r1 c1 r2 c2) → r1 = r2 ∧ c1 = c2)

/-- What `isValid` tests at a cell in range: the digit is in no cell of the
subgrid of `(row, col)` and is in the sets of the row and of the column. -/
def ValidAt (s : SudokuBoard) (num : Int) (row col : Fin 9) : Prop :=
  (∀ r c : Fin 9, sameSubgrid row col r c → s.Board r c ≠ num) ∧
  (s.RowNums row).get num = true ∧ (s.ColNums col).get num = true

/-- No set holds a key with the value `false`: a key is present iff its lookup
is `true`. -/
def SetsWf (s : SudokuBoard) : Prop :=
  ∀ (i : Fin 9) (d : Int),
    (s.RowNums i).hasKey d = (s.RowNums i).get d ∧ (s.ColNums i).hasKey d = (s.ColNums i).get d

/-- The invariant of the search: the tracker invariant, the grid invariant, and
sets without `false` values. -/
def SearchInv (s : SudokuBoard) : Prop := TrackerInv s ∧ GridValid s.Board ∧ SetsWf s

/-- What holds when `solve` is called at place `k`. -/
def SolvePre (s : SudokuBoard) (k : Nat) : Prop :=
  SearchInv s ∧ EmptyFrom s k ∧ FilledBefore s k

/-- What holds when a call of `solve` entered with receiver `s` returns `r`. -/
def SolvePost (s : SudokuBoard) (r : SolveResult) : Prop :=
  (∀ x ∈ r.trace, SearchInv x) ∧
  (r.found = true → SearchInv r.s ∧ FilledBefore r.s 81) ∧
  (r.found = false → r.s = s)

/-- The receiver agrees with the grid `g` on every cell `solve` visits before
place `k`. -/
def AgreesBefore (s : SudokuBoard) (g : Fin 9 → Fin 9 → Int) (k : Nat) : Prop :=
  ∀ r c : Fin 9, cellPos r.val c.val < k → s.Board r c = g r c

/-- The cell with offset `i` in band `b` (rows or columns `3b .. 3b+2`). -/
def subCell (b i : Fin 3) : Fin 9 := ⟨3 * b.val + i.val, by omega⟩

/-- Every row holds each digit of `1..9` exactly once. -/
def RowsComplete (b : Fin 9 → Fin 9 → Int) : Prop :=
  ∀ (r : Fin 9) (d : Int), 1 ≤ d → d ≤ 9 → ∃! c : Fin 9, b r c = d

/-- Every column holds each digit of `1..9` exactly once. -/
def ColsComplete (b : Fin 9 → Fin 9 → Int) : Prop :=
  ∀ (c : Fin 9) (d : Int), 1 ≤ d → d ≤ 9 → ∃! r : Fin 9, b r c = d

/-- Every 3x3 subgrid holds each digit of `1..9` exactly once. -/
def SubgridsComplete (b : Fin 9 → Fin 9 → Int) : Prop :=
  ∀ (br bc : Fin 3) (d : Int), 1 ≤ d → d ≤ 9 →
    ∃! p : Fin 3 × Fin 3, b (subCell br p.1) (subCell bc p.2) = d

/-- The number of empty cells of a grid. -/
def emptyCells (b : Fin 9 → Fin 9 → Int) : Nat :=
  (Finset.univ.filter (fun p : Fin 9 × Fin 9 => b p.1 p.2 = 0)).card

/-- The sets the tracker invariant prescribes for the grid `b`. -/
def stateOfGrid (b : Fin 9 → Fin 9 → Int) : SudokuBoard :=
  { Board := b
    RowNums := fun i d => if 1 ≤ d ∧ d ≤ 9 ∧ ∀ c : Fin 9, b i c ≠ d then some true else none
    ColNums := fun i d => if 1 ≤ d ∧ d ≤ 9 ∧ ∀ r : Fin 9, b r i ≠ d then some true else none }

/-- A grid from which the search at the cell `(7, 8)` fails: row 7 holds
`8, 7, .., 1` in columns `0..7`, column 8 holds `1..7` in rows `0..6`, and the
cell `(8, 3)` holds `8`; the only candidate at `(7, 8)` is `9`, and after it no
digit fits `(8, 8)`. -/
def deadEndGrid (r c : Fin 9) : Int :=
  if r.val = 7 ∧ c.val ≤ 7 then 8 - (c.val : Int)
  else if c.val = 8 ∧ r.val ≤ 6 then (r.val : Int) + 1
  else if r.val = 8 ∧ c.val = 3 then 8
  else 0

/-- The shuffle that leaves every list as it is. -/
def idShuffle (_ : Nat) (nums : List Int) : List Int := nums

/-- A shuffle that rotates the `t`-th candidate list by `3 * t` places; the
search it drives backtracks. -/
def rotateShuffle (t : Nat) (nums : List Int) : List Int := nums.rotate (3 * t)

/-- The number of cells at which two grids hold the same value. -/
def sameCells (b1 b2 : Fin 9 → Fin 9 → Int) : Nat :=
  (Finset.univ.filter (fun p : Fin 9 × Fin 9 => b2 p.1 p.2 = b1 p.1 p.2)).card

/-- The boards `solved` and `played` are what one turn of the loop of `main`
appends: `solved` is the receiver as a call of `generateSolvedSudoku` on a fresh
initialised board left it, with `true` returned and no empty cell, and `played`
has exactly `clearedCells` empty cells and holds the value of `solved` in each of
the other `81 - clearedCells` cells. -/
def RunPair (sh : Nat → List Int → List Int) (fuel : Nat) (clearedCells : Int)
    (solved played : SudokuBoard) : Prop :=
  (∃ (t : Nat) (r : SolveResult),
    generateSolvedSudoku sh fuel (initializeBoard zeroBoard) t = .ok r ∧ r.found = true ∧
    solved = r.s) ∧
  (∀ i j, solved.Board i j ≠ 0) ∧
  (emptyCells played.Board : Int) = clearedCells ∧
  (∀ i j, played.Board i j = 0 ∨ played.Board i j = solved.Board i j) ∧
  (sameCells solved.Board played.Board : Int) = 81 - clearedCells

/-- A solved grid, used to show that the search cannot fail. -/
def refGrid (r c : Fin 9) : Int :=
  (((3 * (r.val % 3) + r.val / 3 + c.val) % 9 + 1 : Nat) : Int)

/-- A shuffle that moves the digit `refGrid` has at the cell of place `t % 81`
to the front when it is a candidate. -/
def refShuffle (t : Nat) (nums : List Int) : List Int :=
  let k := t % 81
  let g : Int := (((3 * ((k % 9) % 3) + (k % 9) / 3 + k / 9) % 9 + 1 : Nat) : Int)
  if g ∈ nums then g :: nums.erase g else nums

/-! ## `generateHTMLTable` and `generateHTML` -/

/-- The text `fmt.Sprintf("%d", n)`: the decimal text of `n`. -/
def sprintfD (n : Int) : String := toString n

/-- The five `WriteString` calls between `<style>` and `</style>`. -/
def styleBlock : String :=
  "<style>" ++ "table \x7b border-collapse: collapse; \x7d\n" ++
  "td \x7b border: 1px solid black; width: 20px; height: 20px; text-align: center; \x7d\n" ++
  "td.empty \x7b background-color: lightgray; \x7d\n" ++
  "td.subgrid-separator \x7b border: none; width: 10px; \x7d\n" ++
  "</style>\n"

/-- The body of the loop over `j` in `generateHTMLTable`, appending to the
builder `htmlTable`. -/
def writeCell (s : SudokuBoard) (i : Fin 9) (htmlTable : String) (j : Fin 9) : String :=
  let num := s.Board i j
  let cellClass := if num ≠ 0 then "" else "empty"
  let b1 := htmlTable ++ ("<td class=\"" ++ cellClass ++ "\">")
  let b2 := if num ≠ 0 then b1 ++ sprintfD num else b1
  let b3 := b2 ++ "</td>"
  if (j.val + 1) % subgridSize = 0 ∧ j.val < boardSize - 1 then
    b3 ++ "<td class=\"subgrid-separator\"></td>"
  else b3

/-- The values of a loop `for k := 0; k < boardSize; k++`. -/
def loopIndices : List (Fin 9) := [0, 1, 2, 3, 4, 5, 6, 7, 8]

/-- The body of the loop over `i` in `generateHTMLTable`. -/
def writeRow (s : SudokuBoard) (htmlTable : String) (i : Fin 9) : String :=
  let b1 := htmlTable ++ "<tr>"
  let b2 := loopIndices.foldl (writeCell s i) b1
  let b3 := b2 ++ "</tr>"
  if (i.val + 1) % subgridSize = 0 ∧ i.val < boardSize - 1 then
    b3 ++ ("<tr><td colspan=\"" ++ sprintfD ((boardSize + subgridSize - 1 : Nat) : Int) ++
      "\" class=\"subgrid-separator\"></td></tr>")
  else b3

/-- The method `generateHTMLTable`. -/
def generateHTMLTable (s : SudokuBoard) : String :=
  let b1 := styleBlock ++ "<table>\n"
  let b2 := loopIndices.foldl (writeRow s) b1
  b2 ++ "</table>\n"

/-- The body of the loop over `col` in `generateHTML`; `sudokuPuzzles[row*2+col]`
is the one index expression of the function. -/
def htmlCol (sudokuPuzzles : List SudokuBoard) (row : Nat) (htmlContent : Except Fault String)
    (col : Nat) : Except Fault String :=
  match htmlContent with
  | .error e => .error e
  | .ok h =>
    match sudokuPuzzles[row * 2 + col]? with
    | none => .error .indexOutOfRange
    | some puzzle =>
      .ok (h ++ "<div style=\"flex: 1;\">" ++ "<hr/><br/>" ++ generateHTMLTable puzzle ++ "</div>")

/-- The body of the loop over `row` in `generateHTML`. -/
def htmlRow (sudokuPuzzles : List SudokuBoard) (htmlContent : Except Fault String) (row : Nat) :
    Except Fault String :=
  match htmlContent with
  | .error e => .error e
  | .ok h =>
    match [0, 1].foldl (htmlCol sudokuPuzzles row) (.ok (h ++ "<div style=\"display: flex;\">")) with
    | .error e => .error e
    | .ok h1 => .ok (h1 ++ "</div><br/>")

/-- The function `generateHTML`. -/
def generateHTML (sudokuPuzzles : List SudokuBoard) : Except Fault String :=
  match [0, 1, 2].foldl (htmlRow sudokuPuzzles) (.ok "<html><body>") with
  | .error e => .error e
  | .ok h => .ok (h ++ "</body></html>")

/-- The character of the decimal digit `k`, for `k < 10`: `'0'` is the character
of code 48. -/
def decimalDigit (k : Nat) : Char := Char.ofNat (48 + k)

/-- The decimal digits of a natural number, most significant first: one digit
below ten, otherwise the digits of `n / 10` followed by the digit `n % 10`. -/
def natDecimal (n : Nat) : List Char :=
  if n < 10 then [decimalDigit n]
  else natDecimal (n / 10) ++ [decimalDigit (n % 10)]
termination_by n
decreasing_by omega

/-- The decimal text of an integer as the specification words it, without
recourse to the library's printing: the digits of the absolute value, after a
minus sign when the integer is negative. -/
def decimalText (d : Int) : String :=
  if d < 0 then String.mk ('-' :: natDecimal d.natAbs) else String.mk (natDecimal d.natAbs)

/-- A value cell as the specification words it: an empty `td` of class `empty`
for `0`, a `td` of empty class holding the decimal text otherwise. -/
def cellText (d : Int) : String :=
  if d = 0 then "<td class=\"empty\"></td>" else "<td class=\"\">" ++ decimalText d ++ "</td>"

/-- The separator cell. -/
def separatorCell : String := "<td class=\"subgrid-separator\"></td>"

/-- The separator row, of colspan 11. -/
def separatorRow : String := "<tr><td colspan=\"11\" class=\"subgrid-separator\"></td></tr>"

/-- A cell row as the specification words it: nine value cells in column
order, a separator cell after the 3rd and the 6th. -/
def rowText (b : Fin 9 → Fin 9 → Int) (i : Fin 9) : String :=
  "<tr>" ++
  cellText (b i 0) ++ cellText (b i 1) ++ cellText (b i 2) ++ separatorCell ++
  cellText (b i 3) ++ cellText (b i 4) ++ cellText (b i 5) ++ separatorCell ++
  cellText (b i 6) ++ cellText (b i 7) ++ cellText (b i 8) ++
  "</tr>"

/-- The table as the specification words it: nine cell rows in row order, a
separator row after the 3rd and the 6th. -/
def tableText (b : Fin 9 → Fin 9 → Int) : String :=
  styleBlock ++ "<table>\n" ++
  rowText b 0 ++ rowText b 1 ++ rowText b 2 ++ separatorRow ++
  rowText b 3 ++ rowText b 4 ++ rowText b 5 ++ separatorRow ++
  rowText b 6 ++ rowText b 7 ++ rowText b 8 ++
  "</table>\n"

/-- One of the two tables of a flex row. -/
def flexItem (puzzle : SudokuBoard) : String :=
  "<div style=\"flex: 1;\">" ++ "<hr/><br/>" ++ generateHTMLTable puzzle ++ "</div>"

/-- A flex row of two tables. -/
def flexRow (left right : SudokuBoard) : String :=
  "<div style=\"display: flex;\">" ++ flexItem left ++ flexItem right ++ "</div><br/>"

/-! ## The order of the search -/

/-- The place of the cell `(r, c)` in row-major order. -/
def rowMajorPos (r c : Nat) : Nat := r * 9 + c

/-- The filled cells of the receiver are closed under going back in row-major
order: what holds in every state if each cell is filled only after the cells of
the rows above it and the cells to its left in its row. -/
def FilledInRowMajorOrder (x : SudokuBoard) : Prop :=
  ∀ r c r1 c1 : Fin 9, x.Board r c ≠ 0 → rowMajorPos r1.val c1.val < rowMajorPos r.val c.val →
    x.Board r1 c1 ≠ 0

/-- The filled cells of the receiver are exactly the first `k` cells in the
order of the search (column by column), for some `k`. -/
def FilledPrefix (x : SudokuBoard) : Prop :=
  ∃ k, k ≤ 81 ∧ FilledBefore x k ∧ EmptyFrom x k

/-! ## One turn of the clearing loop -/

/-- The body of the loop of `generatePlayableSudoku` on the pair `(count, *s)`,
with the pick `p = (i, j)`: a non-empty cell is cleared and counted, an empty
cell leaves both as they are. -/
def clearStep (st : Int × SudokuBoard) (p : Fin 9 × Fin 9) : Int × SudokuBoard :=
  if st.2.Board p.1 p.2 ≠ 0 then
    (st.1 + 1, { st.2 with Board := setCell st.2.Board p.1 p.2 0 })
  else st

/-! ## Theorems -/

/-! ### `initialize` -/

theorem initializeInner_rows (i : Fin 9) (js : List Int) (s : SudokuBoard) (r : Fin 9) (d : Int) :
    (initializeInner i js s).RowNums r d =
      if r = i ∧ d ∈ js then some true else s.RowNums r d := by
  induction js generalizing s with
  | nil => simp [initializeInner]
  | cons j js ih =>
    simp only [initializeInner, ih, setAt, GoMap.set, List.mem_cons]
    by_cases hr : r = i <;> by_cases hd : d = j <;> by_cases hm : d ∈ js <;>
      simp [hr, hd, hm, GoMap.set]

theorem initializeInner_cols (i : Fin 9) (js : List Int) (s : SudokuBoard) (r : Fin 9) (d : Int) :
    (initializeInner i js s).ColNums r d =
      if r = i ∧ d ∈ js then some true else s.ColNums r d := by
  induction js generalizing s with
  | nil => simp [initializeInner]
  | cons j js ih =>
    simp only [initializeInner, ih, setAt, GoMap.set, List.mem_cons]
    by_cases hr : r = i <;> by_cases hd : d = j <;> by_cases hm : d ∈ js <;>
      simp [hr, hd, hm, GoMap.set]

theorem initializeInner_board (i : Fin 9) (js : List Int) (s : SudokuBoard) :
    (initializeInner i js s).Board = s.Board := by
  induction js generalizing s with
  | nil => rfl
  | cons j js ih => simp only [initializeInner, ih]

theorem mem_digits (d : Int) : d ∈ digits ↔ 1 ≤ d ∧ d ≤ 9 := by
  simp only [digits, List.mem_cons, List.mem_singleton, List.not_mem_nil, or_false]
  omega

theorem initializeOuter_rows (is : List (Fin 9)) (s : SudokuBoard) (r : Fin 9) (d : Int) :
    (initializeOuter is s).RowNums r d =
      if r ∈ is then (if 1 ≤ d ∧ d ≤ 9 then some true else none) else s.RowNums r d := by
  induction is generalizing s with
  | nil => simp [initializeOuter]
  | cons i is ih =>
    have hd := mem_digits d
    simp only [digits] at hd
    simp only [initializeOuter, ih, initializeInner_rows, setAt, GoMap.empty, List.mem_cons, hd]
    by_cases hr : r = i <;> by_cases hm : r ∈ is <;> simp [hr, hm, GoMap.empty]

theorem initializeOuter_cols (is : List (Fin 9)) (s : SudokuBoard) (r : Fin 9) (d : Int) :
    (initializeOuter is s).ColNums r d =
      if r ∈ is then (if 1 ≤ d ∧ d ≤ 9 then some true else none) else s.ColNums r d := by
  induction is generalizing s with
  | nil => simp [initializeOuter]
  | cons i is ih =>
    have hd := mem_digits d
    simp only [digits] at hd
    simp only [initializeOuter, ih, initializeInner_cols, setAt, GoMap.empty, List.mem_cons, hd]
    by_cases hr : r = i <;> by_cases hm : r ∈ is <;> simp [hr, hm, GoMap.empty]

theorem initializeOuter_board (is : List (Fin 9)) (s : SudokuBoard) :
    (initializeOuter is s).Board = s.Board := by
  induction is generalizing s with
  | nil => rfl
  | cons i is ih => simp only [initializeOuter, ih, initializeInner_board]

theorem mem_allIdx (r : Fin 9) : r ∈ ([0, 1, 2, 3, 4, 5, 6, 7, 8] : List (Fin 9)) := by
  fin_cases r <;> simp

theorem initializeBoard_rows (s : SudokuBoard) (r : Fin 9) (d : Int) :
    (initializeBoard s).RowNums r d = if 1 ≤ d ∧ d ≤ 9 then some true else none := by
  simp only [initializeBoard, initializeOuter_rows, mem_allIdx, if_true]

theorem initializeBoard_cols (s : SudokuBoard) (r : Fin 9) (d : Int) :
    (initializeBoard s).ColNums r d = if 1 ≤ d ∧ d ≤ 9 then some true else none := by
  simp only [initializeBoard, initializeOuter_cols, mem_allIdx, if_true]

theorem initializeBoard_board (s : SudokuBoard) : (initializeBoard s).Board = s.Board := by
  simp only [initializeBoard, initializeOuter_board]

/-- C10: after `initialize`, whatever the receiver held before, the set of every
row and of every column has the value `true` at each digit of `1..9` (so the
lookup `m[d]` is `true` there) and has no other key. -/
theorem initialize_sets_are_digits (s : SudokuBoard) (i : Fin 9) (d : Int) :
    ((initializeBoard s).RowNums i).get d = decide (1 ≤ d ∧ d ≤ 9) ∧
    ((initializeBoard s).ColNums i).get d = decide (1 ≤ d ∧ d ≤ 9) ∧
    ((initializeBoard s).RowNums i).hasKey d = decide (1 ≤ d ∧ d ≤ 9) ∧
    ((initializeBoard s).ColNums i).hasKey d = decide (1 ≤ d ∧ d ≤ 9) := by
  simp only [GoMap.get, GoMap.hasKey, initializeBoard_rows, initializeBoard_cols]
  by_cases h : 1 ≤ d ∧ d ≤ 9 <;> simp [h]

/-! ### `isValid` -/

theorem cellAt_fin (s : SudokuBoard) (r c : Fin 9) : cellAt s r.val c.val = some (s.Board r c) := by
  simp [cellAt, r.isLt, c.isLt]

theorem scanSubgrid_spec (s : SudokuBoard) (num : Int) (sr sc : Nat) (hsr : sr ≤ 6) (hsc : sc ≤ 6)
    (offs : List (Nat × Nat)) (hoffs : ∀ p ∈ offs, p.1 ≤ 2 ∧ p.2 ≤ 2) :
    ∃ b, scanSubgrid s num sr sc offs = some b ∧
      (b = true ↔ ∀ p ∈ offs, cellAt s (sr + p.1) (sc + p.2) ≠ some num) := by
  induction offs with
  | nil => exact ⟨true, rfl, by simp⟩
  | cons p rest ih =>
    obtain ⟨i, j⟩ := p
    have hp := hoffs (i, j) (List.mem_cons_self _ _)
    simp only at hp
    obtain ⟨b, hb, hiff⟩ := ih (fun q hq => hoffs q (List.mem_cons_of_mem _ hq))
    have hr : sr + i < 9 := by omega
    have hc : sc + j < 9 := by omega
    have hcell : cellAt s (sr + i) (sc + j) = some (s.Board ⟨sr + i, hr⟩ ⟨sc + j, hc⟩) := by
      simp [cellAt, hr, hc]
    by_cases hv : s.Board ⟨sr + i, hr⟩ ⟨sc + j, hc⟩ = num
    · refine ⟨false, ?_, ?_⟩
      · simp [scanSubgrid, hcell, hv]
      · simp [hcell, hv]
    · refine ⟨b, ?_, ?_⟩
      · simp [scanSubgrid, hcell, hv, hb]
      · simp [hcell, hv, hiff]

theorem subgridOffsets_le : ∀ p ∈ subgridOffsets, p.1 ≤ 2 ∧ p.2 ≤ 2 := by
  decide

theorem mem_subgridOffsets (i j : Nat) (hi : i ≤ 2) (hj : j ≤ 2) : (i, j) ∈ subgridOffsets := by
  interval_cases i <;> interval_cases j <;> simp [subgridOffsets]

theorem isValid_spec (s : SudokuBoard) (num : Int) (row col : Fin 9) :
    ∃ b, isValid s num row.val col.val = .ok b ∧ (b = true ↔ ValidAt s num row col) := by
  have hrow := row.isLt
  have hcol := col.isLt
  obtain ⟨b, hb, hiff⟩ := scanSubgrid_spec s num (row.val / 3 * 3) (col.val / 3 * 3)
    (by omega) (by omega) subgridOffsets subgridOffsets_le
  have hscan : (b = true ↔ ∀ r c : Fin 9, sameSubgrid row col r c → s.Board r c ≠ num) := by
    rw [hiff]
    constructor
    · intro h r c hrc hv
      obtain ⟨h1, h2⟩ := hrc
      have hm := mem_subgridOffsets (r.val % 3) (c.val % 3) (by omega) (by omega)
      have := h _ hm
      simp only at this
      have e1 : row.val / 3 * 3 + r.val % 3 = r.val := by omega
      have e2 : col.val / 3 * 3 + c.val % 3 = c.val := by omega
      rw [e1, e2, cellAt_fin, hv] at this
      exact this rfl
    · intro h p hp
      have hle := subgridOffsets_le p hp
      have hr : row.val / 3 * 3 + p.1 < 9 := by omega
      have hc : col.val / 3 * 3 + p.2 < 9 := by omega
      have := h ⟨_, hr⟩ ⟨_, hc⟩ (by constructor <;> simp only <;> omega)
      have hcell := cellAt_fin s ⟨_, hr⟩ ⟨_, hc⟩
      simp only at hcell
      rw [hcell]
      simpa using this
  unfold isValid
  simp only [hb]
  cases b with
  | false =>
    refine ⟨false, rfl, ?_⟩
    simp only [ValidAt]
    constructor
    · intro h; cases h
    · intro h; exact absurd (hscan.2 h.1) (by simp)
  | true =>
    have hs := hscan.1 rfl
    simp only [hrow, hcol, dite_true]
    by_cases h1 : (s.RowNums row).get num = true
    · simp only [Fin.eta, h1, if_true]
      refine ⟨_, rfl, ?_⟩
      exact ⟨fun h => ⟨hs, h1, h⟩, fun h => h.2.2⟩
    · simp only [Fin.eta, h1]
      refine ⟨false, by simp, ?_⟩
      simp [ValidAt, h1]

/-! ### One call of `solve` -/

theorem solve_succ_cases (sh : Nat → List Int → List Int) (fuel : Nat) (s : SudokuBoard)
    (t row col : Nat) :
    (row = 9 ∧ col = 8 ∧ solve sh (fuel + 1) s t row col = .ok ⟨true, s, t, [s]⟩) ∨
    (∃ r1 c1 : Fin 9, cellPos r1.val c1.val = cellPos row col ∧
      solve sh (fuel + 1) s t row col =
        (match tryNums (fun s1 t1 => solve sh fuel s1 t1 (r1.val + 1) c1.val) r1 c1
            (sh t (intersection (s.RowNums r1) (s.ColNums c1))) s (t + 1) with
          | .error e => .error e
          | .ok r => .ok ⟨r.found, r.s, r.t, s :: r.trace⟩)) ∨
    (¬ (row ≤ 9 ∧ col ≤ 8) ∧ solve sh (fuel + 1) s t row col = .error .indexOutOfRange) := by
  by_cases hterm : row = 9 ∧ col + 1 = 9
  · left
    refine ⟨hterm.1, by omega, ?_⟩
    simp [solve, hterm]
  · right
    by_cases hrow : row = 9
    · have hcol : col + 1 ≠ 9 := fun h => hterm ⟨hrow, h⟩
      by_cases hc : col + 1 < 9
      · left
        refine ⟨⟨0, by omega⟩, ⟨col + 1, hc⟩, ?_, ?_⟩
        · simp only [cellPos]; omega
        · simp [solve, hrow, hcol, hc]
      · right
        refine ⟨by omega, ?_⟩
        simp [solve, hrow, hcol, hc]
    · by_cases hc : row < 9 ∧ col < 9
      · left
        refine ⟨⟨row, hc.1⟩, ⟨col, hc.2⟩, rfl, ?_⟩
        simp [solve, hrow, hc]
      · right
        refine ⟨by omega, ?_⟩
        simp [solve, hrow, hc]

/-! ### Placement and undo -/

theorem get_eq_true_iff (m : GoMap) (d : Int) : m.get d = true ↔ m d = some true := by
  unfold GoMap.get
  cases h : m d with
  | none => simp
  | some b => simp

theorem unplace_place (s : SudokuBoard) (row col : Fin 9) (num : Int)
    (h0 : s.Board row col = 0) (hv : ValidAt s num row col) :
    unplace (place s row col num) row col num = s := by
  obtain ⟨_, hr, hc⟩ := hv
  rw [get_eq_true_iff] at hr hc
  cases s with
  | mk B R C =>
    simp only [place, unplace, SudokuBoard.mk.injEq]
    simp only at h0 hr hc
    refine ⟨?_, ?_, ?_⟩
    · funext x y
      simp only [setCell]
      by_cases h : x = row ∧ y = col
      · obtain ⟨rfl, rfl⟩ := h
        simp [h0]
      · simp [h]
    · funext x d
      simp only [setAt, GoMap.set, GoMap.delete]
      by_cases hx : x = row
      · subst hx
        by_cases hd : d = num
        · subst hd; simp [hr, GoMap.set, GoMap.delete]
        · simp [hd, GoMap.set, GoMap.delete]
      · simp [hx]
    · funext x d
      simp only [setAt, GoMap.set, GoMap.delete]
      by_cases hx : x = col
      · subst hx
        by_cases hd : d = num
        · subst hd; simp [hc, GoMap.set, GoMap.delete]
        · simp [hd, GoMap.set, GoMap.delete]
      · simp [hx]

theorem cellPos_inj (r1 c1 r2 c2 : Fin 9) (h : cellPos r1.val c1.val = cellPos r2.val c2.val) :
    r1 = r2 ∧ c1 = c2 := by
  simp only [cellPos] at h
  constructor <;> apply Fin.ext <;> omega

theorem emptyFrom_place (s : SudokuBoard) (row col : Fin 9) (num : Int)
    (he : EmptyFrom s (cellPos row.val col.val)) :
    EmptyFrom (place s row col num) (cellPos row.val col.val + 1) := by
  intro r c h
  have hne : ¬ (r = row ∧ c = col) := by
    rintro ⟨rfl, rfl⟩
    omega
  simp only [place, setCell, hne, if_false]
  exact he r c (by omega)

/-! ### Undo on failure -/

theorem tryNums_restore (next : SudokuBoard → Nat → Except Fault SolveResult) (row col : Fin 9)
    (hnext : ∀ s1 t1 r, EmptyFrom s1 (cellPos row.val col.val + 1) → next s1 t1 = .ok r →
      r.found = false → r.s = s1)
    (nums : List Int) (s : SudokuBoard) (t : Nat) (r : SolveResult)
    (he : EmptyFrom s (cellPos row.val col.val))
    (h : tryNums next row col nums s t = .ok r) (hf : r.found = false) : r.s = s := by
  induction nums generalizing s t r with
  | nil =>
    simp only [tryNums, Except.ok.injEq] at h
    rw [← h]
  | cons num rest ih =>
    obtain ⟨b, hb, hiff⟩ := isValid_spec s num row col
    simp only [tryNums, hb] at h
    cases b with
    | false => exact ih s t r he h hf
    | true =>
      have hv := hiff.1 rfl
      simp only at h
      cases hn : next (place s row col num) t with
      | error e => simp [hn] at h
      | ok r1 =>
        simp only [hn] at h
        by_cases hf1 : r1.found = true
        · simp only [hf1, if_true, Except.ok.injEq] at h
          rw [← h] at hf
          simp at hf
        · simp only [hf1] at h
          have hr1 : r1.s = place s row col num :=
            hnext _ _ _ (emptyFrom_place s row col num he) hn (by simpa using hf1)
          rw [hr1, unplace_place s row col num (he row col (le_refl _)) hv] at h
          cases h2 : tryNums next row col rest s r1.t with
          | error e => simp [h2] at h
          | ok r2 =>
            simp only [h2, Bool.false_eq_true, if_false, Except.ok.injEq] at h
            have := ih s r1.t r2 he h2 (by rw [← h] at hf; exact hf)
            rw [← h]
            exact this

theorem solve_restore (sh : Nat → List Int → List Int) (fuel : Nat) :
    ∀ (s : SudokuBoard) (t row col : Nat) (r : SolveResult),
      EmptyFrom s (cellPos row col) → solve sh fuel s t row col = .ok r →
      r.found = false → r.s = s := by
  induction fuel with
  | zero => intro s t row col r _ h; simp [solve] at h
  | succ fuel ih =>
    intro s t row col r he h hf
    rcases solve_succ_cases sh fuel s t row col with ⟨_, _, h1⟩ | ⟨r1, c1, hpos, h1⟩ | ⟨_, h1⟩
    · rw [h1] at h
      simp only [Except.ok.injEq] at h
      rw [← h]
    · rw [h1] at h
      cases h2 : tryNums (fun s1 t1 => solve sh fuel s1 t1 (r1.val + 1) c1.val) r1 c1
          (sh t (intersection (s.RowNums r1) (s.ColNums c1))) s (t + 1) with
      | error e => simp [h2] at h
      | ok r2 =>
        simp only [h2, Except.ok.injEq] at h
        have := tryNums_restore _ r1 c1
          (fun s1 t1 r3 he1 hs1 hf1 => ih s1 t1 (r1.val + 1) c1.val r3
            (by simpa [cellPos, Nat.add_assoc] using he1) hs1 hf1)
          _ s (t + 1) r2 (by rw [hpos]; exact he) h2 (by rw [← h] at hf; exact hf)
        rw [← h]
        exact this
    · rw [h1] at h
      simp at h

/-! ### The invariants are kept by a placement -/

theorem trackerInv_place (s : SudokuBoard) (row col : Fin 9) (num : Int)
    (hinv : TrackerInv s) (h0 : s.Board row col = 0) (h1 : 1 ≤ num) :
    TrackerInv (place s row col num) := by
  intro i d hd1 hd9
  obtain ⟨hR, hC⟩ := hinv i d hd1 hd9
  have hd0 : (0 : Int) ≠ d := by omega
  constructor
  · by_cases hi : i = row
    · subst hi
      by_cases hd : d = num
      · subst hd
        simp only [place, setAt, GoMap.get, GoMap.delete, setCell, if_true]
        constructor
        · intro h; simp at h
        · intro h; exact absurd (by simp) (h col)
      · have hget : ((place s i col num).RowNums i).get d = (s.RowNums i).get d := by
          simp [place, setAt, GoMap.get, GoMap.delete, hd]
        rw [hget, hR]
        constructor
        · intro h c
          simp only [place, setCell]
          by_cases hc : c = col
          · simp only [hc, and_self, if_true]; exact fun e => hd e.symm
          · simp only [hc, and_false, if_false]; exact h c
        · intro h c
          by_cases hc : c = col
          · subst hc; rw [h0]; exact hd0
          · have := h c
            simpa [place, setCell, hc] using this
    · have hget : ((place s row col num).RowNums i).get d = (s.RowNums i).get d := by
        simp [place, setAt, hi]
      have hb : ∀ c, (place s row col num).Board i c = s.Board i c := by
        intro c; simp [place, setCell, hi]
      rw [hget, hR]
      simp only [hb]
  · by_cases hi : i = col
    · subst hi
      by_cases hd : d = num
      · subst hd
        simp only [place, setAt, GoMap.get, GoMap.delete, setCell, if_true]
        constructor
        · intro h; simp at h
        · intro h; exact absurd (by simp) (h row)
      · have hget : ((place s row i num).ColNums i).get d = (s.ColNums i).get d := by
          simp [place, setAt, GoMap.get, GoMap.delete, hd]
        rw [hget, hC]
        constructor
        · intro h r
          simp only [place, setCell]
          by_cases hr : r = row
          · simp only [hr, and_self, if_true]; exact fun e => hd e.symm
          · simp only [hr, false_and, if_false]; exact h r
        · intro h r
          by_cases hr : r = row
          · subst hr; rw [h0]; exact hd0
          · have := h r
            simpa [place, setCell, hr] using this
    · have hget : ((place s row col num).ColNums i).get d = (s.ColNums i).get d := by
        simp [place, setAt, hi]
      have hb : ∀ r, (place s row col num).Board r i = s.Board r i := by
        intro r; simp [place, setCell, hi]
      rw [hget, hC]
      simp only [hb]

theorem sameSubgrid_symm (r1 c1 r2 c2 : Fin 9) (h : sameSubgrid r1 c1 r2 c2) :
    sameSubgrid r2 c2 r1 c1 := ⟨h.1.symm, h.2.symm⟩

theorem no_clash_of_validAt (s : SudokuBoard) (row col : Fin 9) (num : Int)
    (hinv : TrackerInv s) (h1 : 1 ≤ num) (h9 : num ≤ 9) (hv : ValidAt s num row col)
    (r c : Fin 9) (hrel : row = r ∨ col = c ∨ sameSubgrid row col r c) :
    s.Board r c ≠ num := by
  obtain ⟨hbox, hrow, hcol⟩ := hv
  obtain ⟨hR, _⟩ := hinv row num h1 h9
  obtain ⟨_, hC⟩ := hinv col num h1 h9
  rcases hrel with h | h | h
  · subst h; exact hR.1 hrow c
  · subst h; exact hC.1 hcol r
  · exact hbox r c h

theorem gridValid_place (s : SudokuBoard) (row col : Fin 9) (num : Int)
    (hinv : TrackerInv s) (hg : GridValid s.Board) (h0 : s.Board row col = 0)
    (h1 : 1 ≤ num) (h9 : num ≤ 9) (hv : ValidAt s num row col) :
    GridValid (place s row col num).Board := by
  obtain ⟨hrange, hdup⟩ := hg
  have hclash := no_clash_of_validAt s row col num hinv h1 h9 hv
  constructor
  · intro r c
    simp only [place, setCell]
    by_cases h : r = row ∧ c = col
    · simp only [h, and_self, if_true]; right; exact ⟨h1, h9⟩
    · simp only [h, if_false]; exact hrange r c
  · intro r1 c1 r2 c2 hne heq hrel
    simp only [place, setCell] at hne heq
    by_cases ha : r1 = row ∧ c1 = col
    · by_cases hb : r2 = row ∧ c2 = col
      · exact ⟨ha.1.trans hb.1.symm, ha.2.trans hb.2.symm⟩
      · simp only [ha, and_self, if_true, hb, if_false] at heq
        obtain ⟨rfl, rfl⟩ := ha
        exact absurd heq.symm (hclash r2 c2 hrel)
    · by_cases hb : r2 = row ∧ c2 = col
      · simp only [ha, if_false, hb, and_self, if_true] at heq
        obtain ⟨rfl, rfl⟩ := hb
        have hrel2 : r2 = r1 ∨ c2 = c1 ∨ sameSubgrid r2 c2 r1 c1 := by
          rcases hrel with h | h | h
          · exact Or.inl h.symm
          · exact Or.inr (Or.inl h.symm)
          · exact Or.inr (Or.inr (sameSubgrid_symm _ _ _ _ h))
        exact absurd heq (hclash r1 c1 hrel2)
      · simp only [ha, if_false] at hne
        simp only [ha, hb, if_false] at heq
        exact hdup r1 c1 r2 c2 hne heq hrel

theorem filledBefore_place (s : SudokuBoard) (row col : Fin 9) (num : Int) (h1 : 1 ≤ num)
    (hf : FilledBefore s (cellPos row.val col.val)) :
    FilledBefore (place s row col num) (cellPos row.val col.val + 1) := by
  intro r c h
  simp only [place, setCell]
  by_cases hrc : r = row ∧ c = col
  · simp only [hrc, and_self, if_true]; omega
  · simp only [hrc, if_false]
    apply hf r c
    have : cellPos r.val c.val ≠ cellPos row.val col.val := fun e =>
      hrc (cellPos_inj r c row col e)
    omega

theorem setsWf_place (s : SudokuBoard) (row col : Fin 9) (num : Int) (hw : SetsWf s) :
    SetsWf (place s row col num) := by
  intro i d
  obtain ⟨hR, hC⟩ := hw i d
  simp only [GoMap.hasKey, GoMap.get] at hR hC
  constructor
  · simp only [place, setAt, GoMap.hasKey, GoMap.get, GoMap.delete]
    by_cases hi : i = row
    · by_cases hd : d = num
      · simp [hi, hd, GoMap.delete]
      · subst hi
        simpa [hd, GoMap.delete] using hR
    · simpa [hi] using hR
  · simp only [place, setAt, GoMap.hasKey, GoMap.get, GoMap.delete]
    by_cases hi : i = col
    · by_cases hd : d = num
      · simp [hi, hd, GoMap.delete]
      · subst hi
        simpa [hd, GoMap.delete] using hC
    · simpa [hi] using hC

theorem solvePre_place (s : SudokuBoard) (row col : Fin 9) (num : Int)
    (hpre : SolvePre s (cellPos row.val col.val)) (h1 : 1 ≤ num) (h9 : num ≤ 9)
    (hv : ValidAt s num row col) :
    SolvePre (place s row col num) (cellPos row.val col.val + 1) := by
  obtain ⟨⟨ht, hg, hw⟩, he, hf⟩ := hpre
  have h0 := he row col (le_refl _)
  exact ⟨⟨trackerInv_place s row col num ht h0 h1,
    gridValid_place s row col num ht hg h0 h1 h9 hv, setsWf_place s row col num hw⟩,
    emptyFrom_place s row col num he, filledBefore_place s row col num h1 hf⟩

/-! ### The invariants along the search -/

theorem tryNums_post (next : SudokuBoard → Nat → Except Fault SolveResult) (row col : Fin 9)
    (hnext : ∀ s1 t1 r, SolvePre s1 (cellPos row.val col.val + 1) → next s1 t1 = .ok r →
      SolvePost s1 r)
    (nums : List Int) (hnums : ∀ n ∈ nums, 1 ≤ n ∧ n ≤ 9)
    (s : SudokuBoard) (t : Nat) (r : SolveResult)
    (hpre : SolvePre s (cellPos row.val col.val))
    (h : tryNums next row col nums s t = .ok r) : SolvePost s r := by
  induction nums generalizing s t r with
  | nil =>
    simp only [tryNums, Except.ok.injEq] at h
    subst h
    refine ⟨?_, ?_, ?_⟩
    · intro x hx
      simp only [List.mem_singleton] at hx
      subst hx
      exact hpre.1
    · intro hf; simp at hf
    · intro _; rfl
  | cons num rest ih =>
    have hrest : ∀ n ∈ rest, 1 ≤ n ∧ n ≤ 9 := fun n hn => hnums n (List.mem_cons_of_mem _ hn)
    obtain ⟨hn1, hn9⟩ := hnums num (List.mem_cons_self _ _)
    obtain ⟨b, hb, hiff⟩ := isValid_spec s num row col
    simp only [tryNums, hb] at h
    cases b with
    | false => exact ih hrest s t r hpre h
    | true =>
      have hv := hiff.1 rfl
      have hpre1 := solvePre_place s row col num hpre hn1 hn9 hv
      simp only at h
      cases hn : next (place s row col num) t with
      | error e => simp [hn] at h
      | ok r1 =>
        obtain ⟨htr1, hfound1, hfail1⟩ := hnext _ _ _ hpre1 hn
        simp only [hn] at h
        by_cases hf1 : r1.found = true
        · simp only [hf1, if_true, Except.ok.injEq] at h
          subst h
          obtain ⟨hi1, hfb1⟩ := hfound1 hf1
          refine ⟨?_, ?_, ?_⟩
          · intro x hx
            simp only [List.mem_append, List.mem_singleton] at hx
            rcases hx with hx | hx
            · exact htr1 x hx
            · subst hx; exact hi1
          · intro _; exact ⟨hi1, hfb1⟩
          · intro hf; simp at hf
        · simp only [hf1] at h
          have hr1 : r1.s = place s row col num := hfail1 (by simpa using hf1)
          rw [hr1, unplace_place s row col num (hpre.2.1 row col (le_refl _)) hv] at h
          cases h2 : tryNums next row col rest s r1.t with
          | error e => simp [h2] at h
          | ok r2 =>
            simp only [h2, Bool.false_eq_true, if_false, Except.ok.injEq] at h
            obtain ⟨htr2, hfound2, hfail2⟩ := ih hrest s r1.t r2 hpre h2
            subst h
            refine ⟨?_, hfound2, hfail2⟩
            intro x hx
            simp only [List.mem_append, List.mem_cons] at hx
            rcases hx with hx | hx | hx
            · exact htr1 x hx
            · subst hx; exact hpre.1
            · exact htr2 x hx

theorem mem_intersection (m1 m2 : GoMap) (d : Int) :
    d ∈ intersection m1 m2 ↔ (1 ≤ d ∧ d ≤ 9) ∧ m1.get d = true ∧ m2.get d = true := by
  simp only [intersection, List.mem_filter, mem_digits, Bool.and_eq_true]

theorem solve_post (sh : Nat → List Int → List Int) (hsh : ∀ t l, (sh t l).Perm l) (fuel : Nat) :
    ∀ (s : SudokuBoard) (t row col : Nat) (r : SolveResult),
      SolvePre s (cellPos row col) → solve sh fuel s t row col = .ok r → SolvePost s r := by
  induction fuel with
  | zero => intro s t row col r _ h; simp [solve] at h
  | succ fuel ih =>
    intro s t row col r hpre h
    rcases solve_succ_cases sh fuel s t row col with ⟨hr, hc, h1⟩ | ⟨r1, c1, hpos, h1⟩ | ⟨_, h1⟩
    · rw [h1] at h
      simp only [Except.ok.injEq] at h
      subst h
      have hk : cellPos row col = 81 := by simp only [cellPos]; omega
      rw [hk] at hpre
      refine ⟨?_, ?_, ?_⟩
      · intro x hx
        simp only [List.mem_singleton] at hx
        subst hx; exact hpre.1
      · intro _; exact ⟨hpre.1, hpre.2.2⟩
      · intro _; rfl
    · rw [h1] at h
      cases h2 : tryNums (fun s1 t1 => solve sh fuel s1 t1 (r1.val + 1) c1.val) r1 c1
          (sh t (intersection (s.RowNums r1) (s.ColNums c1))) s (t + 1) with
      | error e => simp [h2] at h
      | ok r2 =>
        simp only [h2, Except.ok.injEq] at h
        have hnums : ∀ n ∈ sh t (intersection (s.RowNums r1) (s.ColNums c1)), 1 ≤ n ∧ n ≤ 9 := by
          intro n hn
          have := (hsh t _).mem_iff.1 hn
          exact ((mem_intersection _ _ _).1 this).1
        obtain ⟨htr, hfound, hfail⟩ := tryNums_post _ r1 c1
          (fun s1 t1 r3 hp1 hs1 => ih s1 t1 (r1.val + 1) c1.val r3
            (by simpa [cellPos, Nat.add_assoc] using hp1) hs1)
          _ hnums s (t + 1) r2 (by rw [hpos]; exact hpre) h2
        subst h
        refine ⟨?_, hfound, hfail⟩
        intro x hx
        simp only [List.mem_cons] at hx
        rcases hx with hx | hx
        · subst hx; exact hpre.1
        · exact htr x hx
    · rw [h1] at h
      simp at h

/-! ### The freshly initialised board -/

theorem solvePre_initial : SolvePre (initializeBoard zeroBoard) 0 := by
  have hb : ∀ r c, (initializeBoard zeroBoard).Board r c = 0 := by
    intro r c; rw [initializeBoard_board]; rfl
  refine ⟨⟨?_, ⟨?_, ?_⟩, ?_⟩, ?_, ?_⟩
  · intro i d h1 h9
    have hR : ((initializeBoard zeroBoard).RowNums i).get d = true := by
      simp [GoMap.get, initializeBoard_rows, h1, h9]
    have hC : ((initializeBoard zeroBoard).ColNums i).get d = true := by
      simp [GoMap.get, initializeBoard_cols, h1, h9]
    simp only [hR, hC, hb, true_iff]
    constructor <;> intro _ <;> omega
  · intro r c; left; exact hb r c
  · intro r1 c1 r2 c2 hne; exact absurd (hb r1 c1) hne
  · intro i d
    simp only [GoMap.hasKey, GoMap.get, initializeBoard_rows, initializeBoard_cols]
    by_cases h : 1 ≤ d ∧ d ≤ 9 <;> simp [h]
  · intro r c _; exact hb r c
  · intro r c h; omega

/-! ### A full grid without clashes holds every digit once in each unit -/

theorem exists_unique_of_injective {α : Type} [Fintype α] (hcard : Fintype.card α = 9)
    (f : α → Int) (hinj : Function.Injective f) (hrange : ∀ a, 1 ≤ f a ∧ f a ≤ 9)
    (d : Int) (h1 : 1 ≤ d) (h9 : d ≤ 9) : ∃! a, f a = d := by
  have hsub : Finset.univ.image f ⊆ Finset.Icc (1 : Int) 9 := by
    intro x hx
    obtain ⟨a, _, rfl⟩ := Finset.mem_image.1 hx
    exact Finset.mem_Icc.2 (hrange a)
  have hcardimg : (Finset.univ.image f).card = 9 := by
    rw [Finset.card_image_of_injective _ hinj, Finset.card_univ, hcard]
  have heq : Finset.univ.image f = Finset.Icc (1 : Int) 9 := by
    apply Finset.eq_of_subset_of_card_le hsub
    rw [hcardimg]
    simp
  have hd : d ∈ Finset.univ.image f := by
    rw [heq]; exact Finset.mem_Icc.2 ⟨h1, h9⟩
  obtain ⟨a, _, ha⟩ := Finset.mem_image.1 hd
  exact ⟨a, ha, fun b hb => hinj (hb.trans ha.symm)⟩

theorem full_range (b : Fin 9 → Fin 9 → Int) (hg : GridValid b) (hfull : ∀ r c, b r c ≠ 0)
    (r c : Fin 9) : 1 ≤ b r c ∧ b r c ≤ 9 := by
  rcases hg.1 r c with h | h
  · exact absurd h (hfull r c)
  · exact h

theorem rowsComplete_of_full (b : Fin 9 → Fin 9 → Int) (hg : GridValid b)
    (hfull : ∀ r c, b r c ≠ 0) : RowsComplete b := by
  intro r d h1 h9
  apply exists_unique_of_injective (by simp) (fun c => b r c) _ (fun c => full_range b hg hfull r c)
    d h1 h9
  intro c1 c2 h
  exact (hg.2 r c1 r c2 (hfull r c1) h (Or.inl rfl)).2

theorem colsComplete_of_full (b : Fin 9 → Fin 9 → Int) (hg : GridValid b)
    (hfull : ∀ r c, b r c ≠ 0) : ColsComplete b := by
  intro c d h1 h9
  apply exists_unique_of_injective (by simp) (fun r => b r c) _ (fun r => full_range b hg hfull r c)
    d h1 h9
  intro r1 r2 h
  exact (hg.2 r1 c r2 c (hfull r1 c) h (Or.inr (Or.inl rfl))).1

theorem subCell_inj (b i j : Fin 3) (h : subCell b i = subCell b j) : i = j := by
  simp only [subCell, Fin.mk.injEq] at h
  apply Fin.ext
  omega

theorem subgridsComplete_of_full (b : Fin 9 → Fin 9 → Int) (hg : GridValid b)
    (hfull : ∀ r c, b r c ≠ 0) : SubgridsComplete b := by
  intro br bc d h1 h9
  apply exists_unique_of_injective (by simp)
    (fun p : Fin 3 × Fin 3 => b (subCell br p.1) (subCell bc p.2)) _
    (fun p => full_range b hg hfull _ _) d h1 h9
  intro p q h
  have hsame : sameSubgrid (subCell br p.1) (subCell bc p.2) (subCell br q.1) (subCell bc q.2) := by
    constructor <;> simp only [subCell] <;> omega
  obtain ⟨e1, e2⟩ := hg.2 _ _ _ _ (hfull _ _) h (Or.inr (Or.inr hsame))
  exact Prod.ext (subCell_inj _ _ _ e1) (subCell_inj _ _ _ e2)

theorem full_of_filledBefore (s : SudokuBoard) (h : FilledBefore s 81) (r c : Fin 9) :
    s.Board r c ≠ 0 := by
  apply h r c
  simp only [cellPos]
  omega

theorem eq_ok_resultOf (x : Except Fault SolveResult) (h : returned x = true) :
    x = .ok (resultOf x) := by
  cases x with
  | error e => simp [returned] at h
  | ok r => rfl

theorem eq_ok_of_found (x : Except Fault SolveResult) (h : (resultOf x).found = true) :
    x = .ok (resultOf x) := by
  cases x with
  | error e => simp [resultOf] at h
  | ok r => rfl

theorem eq_ok_of_logged (x : Except Fault SolveResult) (h : 0 < (resultOf x).trace.length) :
    x = .ok (resultOf x) := by
  cases x with
  | error e => simp [resultOf] at h
  | ok r => rfl

theorem refShuffle_perm (t : Nat) (l : List Int) : (refShuffle t l).Perm l := by
  simp only [refShuffle]
  split
  · rename_i h
    exact (List.perm_cons_erase h).symm
  · exact List.Perm.refl _


/-! ### C1: the generated grid -/

/-- C1: for every outcome of the shuffles (each one a permutation of the
candidate list), if `generateSolvedSudoku` on the all-empty board set up by
`initialize` returns `true`, then in the resulting `Board` every row, every
column and every 3x3 subgrid holds each digit of `1..9` exactly once. -/
theorem generated_grid_is_sudoku (sh : Nat → List Int → List Int)
    (hsh : ∀ t l, (sh t l).Perm l) (fuel t : Nat) (r : SolveResult)
    (h : generateSolvedSudoku sh fuel (initializeBoard zeroBoard) t = .ok r)
    (hfound : r.found = true) :
    RowsComplete r.s.Board ∧ ColsComplete r.s.Board ∧ SubgridsComplete r.s.Board := by
  have hpost := solve_post sh hsh fuel (initializeBoard zeroBoard) t 0 0 r
    (by simpa [cellPos] using solvePre_initial) h
  obtain ⟨⟨_, hg, _⟩, hfb⟩ := hpost.2.1 hfound
  have hfull := full_of_filledBefore r.s hfb
  exact ⟨rowsComplete_of_full _ hg hfull, colsComplete_of_full _ hg hfull,
    subgridsComplete_of_full _ hg hfull⟩

set_option maxRecDepth 100000 in
set_option maxHeartbeats 4000000 in
/-- Witness of C1: the run whose shuffles follow `refShuffle` returns `true`, and
its grid is a solved Sudoku. -/
theorem generated_grid_is_sudoku_witness :
    (resultOf (generateSolvedSudoku refShuffle 82 (initializeBoard zeroBoard) 0)).found = true ∧
    RowsComplete
      (resultOf (generateSolvedSudoku refShuffle 82 (initializeBoard zeroBoard) 0)).s.Board ∧
    ColsComplete
      (resultOf (generateSolvedSudoku refShuffle 82 (initializeBoard zeroBoard) 0)).s.Board ∧
    SubgridsComplete
      (resultOf (generateSolvedSudoku refShuffle 82 (initializeBoard zeroBoard) 0)).s.Board :=
by
  have hfound :
      (resultOf (generateSolvedSudoku refShuffle 82 (initializeBoard zeroBoard) 0)).found = true := by
    decide!
  exact ⟨hfound, generated_grid_is_sudoku refShuffle refShuffle_perm 82 0 _
    (eq_ok_of_found _ hfound) hfound⟩

/-! ### Every call returns -/

theorem tryNums_returns (next : SudokuBoard → Nat → Except Fault SolveResult) (row col : Fin 9)
    (hnext : ∀ s1 t1, ∃ r, next s1 t1 = .ok r) (nums : List Int) (s : SudokuBoard) (t : Nat) :
    ∃ r, tryNums next row col nums s t = .ok r := by
  induction nums generalizing s t with
  | nil => exact ⟨_, rfl⟩
  | cons num rest ih =>
    obtain ⟨b, hb, _⟩ := isValid_spec s num row col
    simp only [tryNums, hb]
    cases b with
    | false => exact ih s t
    | true =>
      obtain ⟨r1, hr1⟩ := hnext (place s row col num) t
      simp only [hr1]
      by_cases hf1 : r1.found = true
      · simp [hf1]
      · obtain ⟨r2, hr2⟩ := ih (unplace r1.s row col num) r1.t
        simp [hf1, hr2]

theorem solve_returns (sh : Nat → List Int → List Int) (fuel : Nat) :
    ∀ (s : SudokuBoard) (t row col : Nat), row ≤ 9 → col ≤ 8 → 82 ≤ fuel + cellPos row col →
      ∃ r, solve sh fuel s t row col = .ok r := by
  induction fuel with
  | zero =>
    intro s t row col hr hc hk
    simp only [cellPos] at hk
    omega
  | succ fuel ih =>
    intro s t row col hr hc hk
    rcases solve_succ_cases sh fuel s t row col with ⟨_, _, h1⟩ | ⟨r1, c1, hpos, h1⟩ | ⟨hn, _⟩
    · exact ⟨_, h1⟩
    · obtain ⟨r2, hr2⟩ := tryNums_returns
        (fun s1 t1 => solve sh fuel s1 t1 (r1.val + 1) c1.val) r1 c1
        (fun s1 t1 => ih s1 t1 (r1.val + 1) c1.val (by omega) (by omega)
          (by simp only [cellPos] at hpos hk ⊢; omega))
        (sh t (intersection (s.RowNums r1) (s.ColNums c1))) s (t + 1)
      rw [h1, hr2]
      exact ⟨_, rfl⟩
    · exact absurd ⟨hr, hc⟩ hn

/-! ### The search is complete -/

theorem refGrid_range (r c : Fin 9) : 1 ≤ refGrid r c ∧ refGrid r c ≤ 9 := by
  simp only [refGrid]
  omega

theorem refGrid_no_clash (r1 c1 r2 c2 : Fin 9) (h : refGrid r1 c1 = refGrid r2 c2)
    (hrel : r1 = r2 ∨ c1 = c2 ∨ sameSubgrid r1 c1 r2 c2) : r1 = r2 ∧ c1 = c2 := by
  have key : ∀ a1 b1 a2 b2 : Fin 9, refGrid a1 b1 = refGrid a2 b2 →
      (a1 = a2 ∨ b1 = b2 ∨ (a1.val / 3 = a2.val / 3 ∧ b1.val / 3 = b2.val / 3)) →
      a1 = a2 ∧ b1 = b2 := by
    decide!
  exact key r1 c1 r2 c2 h hrel

theorem validAt_of_agrees (g : Fin 9 → Fin 9 → Int)
    (hrange : ∀ r c, 1 ≤ g r c ∧ g r c ≤ 9)
    (hclash : ∀ r1 c1 r2 c2, g r1 c1 = g r2 c2 →
      (r1 = r2 ∨ c1 = c2 ∨ sameSubgrid r1 c1 r2 c2) → r1 = r2 ∧ c1 = c2)
    (s : SudokuBoard) (row col : Fin 9) (hinv : TrackerInv s)
    (he : EmptyFrom s (cellPos row.val col.val))
    (ha : AgreesBefore s g (cellPos row.val col.val)) :
    ValidAt s (g row col) row col := by
  obtain ⟨h1, h9⟩ := hrange row col
  have hcell : ∀ r c : Fin 9, (row = r ∨ col = c ∨ sameSubgrid row col r c) →
      s.Board r c ≠ g row col := by
    intro r c hrel heq
    by_cases hlt : cellPos r.val c.val < cellPos row.val col.val
    · rw [ha r c hlt] at heq
      obtain ⟨e1, e2⟩ := hclash row col r c heq.symm hrel
      subst e1; subst e2
      omega
    · rw [he r c (by omega)] at heq
      omega
  obtain ⟨hR, _⟩ := hinv row (g row col) h1 h9
  obtain ⟨_, hC⟩ := hinv col (g row col) h1 h9
  exact ⟨fun r c h => hcell r c (Or.inr (Or.inr h)),
    hR.2 (fun c => hcell row c (Or.inl rfl)),
    hC.2 (fun r => hcell r col (Or.inr (Or.inl rfl)))⟩

theorem agreesBefore_place (g : Fin 9 → Fin 9 → Int) (s : SudokuBoard) (row col : Fin 9)
    (ha : AgreesBefore s g (cellPos row.val col.val)) :
    AgreesBefore (place s row col (g row col)) g (cellPos row.val col.val + 1) := by
  intro r c h
  simp only [place, setCell]
  by_cases hrc : r = row ∧ c = col
  · obtain ⟨rfl, rfl⟩ := hrc
    simp
  · simp only [hrc, if_false]
    apply ha r c
    have : cellPos r.val c.val ≠ cellPos row.val col.val := fun e =>
      hrc (cellPos_inj r c row col e)
    omega

theorem tryNums_complete (g : Fin 9 → Fin 9 → Int)
    (hrange : ∀ r c, 1 ≤ g r c ∧ g r c ≤ 9)
    (hclash : ∀ r1 c1 r2 c2, g r1 c1 = g r2 c2 →
      (r1 = r2 ∨ c1 = c2 ∨ sameSubgrid r1 c1 r2 c2) → r1 = r2 ∧ c1 = c2)
    (next : SudokuBoard → Nat → Except Fault SolveResult) (row col : Fin 9)
    (hnext : ∀ s1 t1 r, TrackerInv s1 → EmptyFrom s1 (cellPos row.val col.val + 1) →
      AgreesBefore s1 g (cellPos row.val col.val + 1) → next s1 t1 = .ok r → r.found = true)
    (hrest : ∀ s1 t1 r, EmptyFrom s1 (cellPos row.val col.val + 1) → next s1 t1 = .ok r →
      r.found = false → r.s = s1)
    (nums : List Int) (hmem : g row col ∈ nums) (s : SudokuBoard) (t : Nat) (r : SolveResult)
    (hinv : TrackerInv s) (he : EmptyFrom s (cellPos row.val col.val))
    (ha : AgreesBefore s g (cellPos row.val col.val))
    (h : tryNums next row col nums s t = .ok r) : r.found = true := by
  have hvg := validAt_of_agrees g hrange hclash s row col hinv he ha
  have h0 := he row col (le_refl _)
  induction nums generalizing t r with
  | nil => simp at hmem
  | cons num rest ih =>
    obtain ⟨b, hb, hiff⟩ := isValid_spec s num row col
    simp only [tryNums, hb] at h
    cases b with
    | false =>
      have hne : g row col ≠ num := by
        intro e
        rw [← e] at hiff
        exact absurd (hiff.2 hvg) (by simp)
      have hmem' : g row col ∈ rest := by
        rcases List.mem_cons.1 hmem with e | e
        · exact absurd e hne
        · exact e
      exact ih hmem' t r h
    | true =>
      have hv := hiff.1 rfl
      simp only at h
      cases hn : next (place s row col num) t with
      | error e => simp [hn] at h
      | ok r1 =>
        simp only [hn] at h
        by_cases hf1 : r1.found = true
        · simp only [hf1, if_true, Except.ok.injEq] at h
          rw [← h]
        · simp only [hf1] at h
          have hne : g row col ≠ num := by
            intro e
            subst e
            exact hf1 (hnext _ _ _ (trackerInv_place s row col _ hinv h0 (hrange row col).1)
              (emptyFrom_place s row col _ he) (agreesBefore_place g s row col ha) hn)
          have hmem' : g row col ∈ rest := by
            rcases List.mem_cons.1 hmem with e | e
            · exact absurd e hne
            · exact e
          have hr1 : r1.s = place s row col num :=
            hrest _ _ _ (emptyFrom_place s row col num he) hn (by simpa using hf1)
          rw [hr1, unplace_place s row col num h0 hv] at h
          cases h2 : tryNums next row col rest s r1.t with
          | error e => simp [h2] at h
          | ok r2 =>
            simp only [h2, Bool.false_eq_true, if_false, Except.ok.injEq] at h
            rw [← h]
            exact ih hmem' r1.t r2 h2

theorem solve_complete (g : Fin 9 → Fin 9 → Int)
    (hrange : ∀ r c, 1 ≤ g r c ∧ g r c ≤ 9)
    (hclash : ∀ r1 c1 r2 c2, g r1 c1 = g r2 c2 →
      (r1 = r2 ∨ c1 = c2 ∨ sameSubgrid r1 c1 r2 c2) → r1 = r2 ∧ c1 = c2)
    (sh : Nat → List Int → List Int) (hsh : ∀ t l, (sh t l).Perm l) (fuel : Nat) :
    ∀ (s : SudokuBoard) (t row col : Nat) (r : SolveResult),
      TrackerInv s → EmptyFrom s (cellPos row col) → AgreesBefore s g (cellPos row col) →
      solve sh fuel s t row col = .ok r → r.found = true := by
  induction fuel with
  | zero => intro s t row col r _ _ _ h; simp [solve] at h
  | succ fuel ih =>
    intro s t row col r hinv he ha h
    rcases solve_succ_cases sh fuel s t row col with ⟨_, _, h1⟩ | ⟨r1, c1, hpos, h1⟩ | ⟨_, h1⟩
    · rw [h1] at h
      simp only [Except.ok.injEq] at h
      rw [← h]
    · rw [h1] at h
      rw [← hpos] at he ha
      cases h2 : tryNums (fun s1 t1 => solve sh fuel s1 t1 (r1.val + 1) c1.val) r1 c1
          (sh t (intersection (s.RowNums r1) (s.ColNums c1))) s (t + 1) with
      | error e => simp [h2] at h
      | ok r2 =>
        simp only [h2, Except.ok.injEq] at h
        have hvg := validAt_of_agrees g hrange hclash s r1 c1 hinv he ha
        have hmem : g r1 c1 ∈ sh t (intersection (s.RowNums r1) (s.ColNums c1)) :=
          (hsh t _).mem_iff.2 ((mem_intersection _ _ _).2 ⟨hrange r1 c1, hvg.2.1, hvg.2.2⟩)
        have := tryNums_complete g hrange hclash _ r1 c1
          (fun s1 t1 r3 hi1 he1 ha1 hs1 => ih s1 t1 (r1.val + 1) c1.val r3 hi1
            (by simpa [cellPos, Nat.add_assoc] using he1)
            (by simpa [cellPos, Nat.add_assoc] using ha1) hs1)
          (fun s1 t1 r3 he1 hs1 hf1 => solve_restore sh fuel s1 t1 (r1.val + 1) c1.val r3
            (by simpa [cellPos, Nat.add_assoc] using he1) hs1 hf1)
          _ hmem s (t + 1) r2 hinv he ha h2
        rw [← h]
        exact this
    · rw [h1] at h
      simp at h

/-! ### C2: the search from the empty board succeeds -/

/-- C2: for every outcome of the shuffles, `generateSolvedSudoku` on the
all-empty board set up by `initialize` returns `true`: with room for the 82
nested calls it returns, and whenever it returns the value is `true`. -/
theorem generateSolvedSudoku_returns_true (sh : Nat → List Int → List Int)
    (hsh : ∀ t l, (sh t l).Perm l) :
    (∀ fuel t, 82 ≤ fuel →
      ∃ r, generateSolvedSudoku sh fuel (initializeBoard zeroBoard) t = .ok r ∧ r.found = true) ∧
    (∀ fuel t r, generateSolvedSudoku sh fuel (initializeBoard zeroBoard) t = .ok r →
      r.found = true) := by
  have hall : ∀ fuel t r, generateSolvedSudoku sh fuel (initializeBoard zeroBoard) t = .ok r →
      r.found = true := by
    intro fuel t r h
    have hpre := solvePre_initial
    exact solve_complete refGrid refGrid_range
      (fun r1 c1 r2 c2 => refGrid_no_clash r1 c1 r2 c2) sh hsh fuel _ t 0 0 r hpre.1.1
      (by simpa [cellPos] using hpre.2.1) (by intro r c hlt; simp [cellPos] at hlt) h
  refine ⟨?_, hall⟩
  intro fuel t hfuel
  obtain ⟨r, hr⟩ := solve_returns sh fuel (initializeBoard zeroBoard) t 0 0 (by omega) (by omega)
    (by simp only [cellPos]; omega)
  exact ⟨r, hr, hall fuel t r hr⟩

/-- Witness of C2: the run whose shuffles follow `refShuffle`. -/
theorem generateSolvedSudoku_returns_true_witness :
    (∀ fuel t, 82 ≤ fuel →
      ∃ r, generateSolvedSudoku refShuffle fuel (initializeBoard zeroBoard) t = .ok r ∧
        r.found = true) ∧
    (∀ fuel t r, generateSolvedSudoku refShuffle fuel (initializeBoard zeroBoard) t = .ok r →
      r.found = true) :=
  generateSolvedSudoku_returns_true refShuffle refShuffle_perm

/-! ### C7, C8: the invariants at every logged state -/

/-- C7: the tracker invariant holds in every state the search from the all-empty
initialised board reaches, for every outcome of the shuffles: at the entry of
every call of `solve`, after every undo and at every return, a digit `d` of
`1..9` is in `RowNums[r]` iff no cell of row `r` holds `d`, and in `ColNums[c]`
iff no cell of column `c` holds `d`.  Being in a set is the lookup `m[d]` of the
source; it is the same as `d` being a key, no set ever holding a `false`. -/
theorem tracker_invariant_along_search (sh : Nat → List Int → List Int)
    (hsh : ∀ t l, (sh t l).Perm l) (fuel t : Nat) (r : SolveResult)
    (h : generateSolvedSudoku sh fuel (initializeBoard zeroBoard) t = .ok r) :
    ∀ x ∈ r.trace, ∀ (i : Fin 9) (d : Int), 1 ≤ d → d ≤ 9 →
      ((x.RowNums i).get d = true ↔ ∀ c : Fin 9, x.Board i c ≠ d) ∧
      ((x.ColNums i).get d = true ↔ ∀ r : Fin 9, x.Board r i ≠ d) ∧
      (x.RowNums i).hasKey d = (x.RowNums i).get d ∧
      (x.ColNums i).hasKey d = (x.ColNums i).get d := by
  intro x hx i d h1 h9
  obtain ⟨ht, _, hw⟩ := (solve_post sh hsh fuel (initializeBoard zeroBoard) t 0 0 r
    (by simpa [cellPos] using solvePre_initial) h).1 x hx
  exact ⟨(ht i d h1 h9).1, (ht i d h1 h9).2, (hw i d).1, (hw i d).2⟩

set_option maxRecDepth 100000 in
set_option maxHeartbeats 4000000 in
/-- Witness of C7: the run whose shuffles follow `refShuffle` logs 163 states,
and the tracker invariant holds in each. -/
theorem tracker_invariant_along_search_witness :
    (resultOf (generateSolvedSudoku refShuffle 82 (initializeBoard zeroBoard) 0)).trace.length
      = 163 ∧
    ∀ x ∈ (resultOf (generateSolvedSudoku refShuffle 82 (initializeBoard zeroBoard) 0)).trace,
      ∀ (i : Fin 9) (d : Int), 1 ≤ d → d ≤ 9 →
        ((x.RowNums i).get d = true ↔ ∀ c : Fin 9, x.Board i c ≠ d) ∧
        ((x.ColNums i).get d = true ↔ ∀ r : Fin 9, x.Board r i ≠ d) ∧
        (x.RowNums i).hasKey d = (x.RowNums i).get d ∧
        (x.ColNums i).hasKey d = (x.ColNums i).get d :=
by
  have hlen :
      (resultOf (generateSolvedSudoku refShuffle 82 (initializeBoard zeroBoard) 0)).trace.length
        = 163 := by
    decide!
  exact ⟨hlen, tracker_invariant_along_search refShuffle refShuffle_perm 82 0 _
    (eq_ok_of_logged _ (by rw [hlen]; decide))⟩

/-- C8: the grid invariant holds in every state the search from the all-empty
initialised board reaches, for every outcome of the shuffles (the partially
filled grids at call entries and the grids `solve` backtracks from included):
every cell is empty or holds a digit of `1..9`, and no filled cell shares its
digit with another cell of its row, its column or its 3x3 subgrid. -/
theorem grid_invariant_along_search (sh : Nat → List Int → List Int)
    (hsh : ∀ t l, (sh t l).Perm l) (fuel t : Nat) (r : SolveResult)
    (h : generateSolvedSudoku sh fuel (initializeBoard zeroBoard) t = .ok r) :
    ∀ x ∈ r.trace,
      (∀ i j : Fin 9, x.Board i j = 0 ∨ (1 ≤ x.Board i j ∧ x.Board i j ≤ 9)) ∧
      (∀ r1 c1 r2 c2 : Fin 9, x.Board r1 c1 ≠ 0 → x.Board r1 c1 = x.Board r2 c2 →
        (r1 = r2 ∨ c1 = c2 ∨ sameSubgrid r1 c1 r2 c2) → r1 = r2 ∧ c1 = c2) := by
  intro x hx
  exact ((solve_post sh hsh fuel (initializeBoard zeroBoard) t 0 0 r
    (by simpa [cellPos] using solvePre_initial) h).1 x hx).2.1

set_option maxRecDepth 100000 in
set_option maxHeartbeats 4000000 in
/-- Witness of C8: the run whose shuffles follow `rotateShuffle` backtracks, logs
184 states, and the grid invariant holds in each. -/
theorem grid_invariant_along_search_witness :
    (resultOf (generateSolvedSudoku rotateShuffle 82 (initializeBoard zeroBoard) 0)).trace.length
      = 184 ∧
    ∀ x ∈ (resultOf (generateSolvedSudoku rotateShuffle 82 (initializeBoard zeroBoard) 0)).trace,
      (∀ i j : Fin 9, x.Board i j = 0 ∨ (1 ≤ x.Board i j ∧ x.Board i j ≤ 9)) ∧
      (∀ r1 c1 r2 c2 : Fin 9, x.Board r1 c1 ≠ 0 → x.Board r1 c1 = x.Board r2 c2 →
        (r1 = r2 ∨ c1 = c2 ∨ sameSubgrid r1 c1 r2 c2) → r1 = r2 ∧ c1 = c2) :=
by
  have hlen :
      (resultOf (generateSolvedSudoku rotateShuffle 82 (initializeBoard zeroBoard) 0)).trace.length
        = 184 := by
    decide!
  exact ⟨hlen,
    grid_invariant_along_search rotateShuffle (fun t l => List.rotate_perm l (3 * t)) 82 0 _
      (eq_ok_of_logged _ (by rw [hlen]; decide))⟩

/-! ### C9: undo on failure -/

theorem trackerInv_stateOfGrid (b : Fin 9 → Fin 9 → Int) : TrackerInv (stateOfGrid b) := by
  intro i d h1 h9
  simp only [stateOfGrid, GoMap.get]
  constructor
  · by_cases h : ∀ c : Fin 9, b i c ≠ d
    · simp [h1, h9, h]
    · simp [h]
  · by_cases h : ∀ r : Fin 9, b r i ≠ d
    · simp [h1, h9, h]
    · simp [h]

theorem emptyFrom_deadEnd : EmptyFrom (stateOfGrid deadEndGrid) (cellPos 7 8) := by
  intro r c h
  simp only [cellPos] at h
  have hr := r.isLt
  have hc := c.isLt
  simp only [stateOfGrid, deadEndGrid]
  split_ifs <;> omega

/-- C9: undo on failure is exact.  For every outcome of the shuffles, if
`solve(row, col)` returns `false` from a state in which the tracker invariant
holds and every cell at or after `(row, col)` in the order of the search is
empty, then `Board`, `RowNums` and `ColNums` are after the call what they were
before it. -/
theorem undo_on_failure_is_exact (sh : Nat → List Int → List Int)
    (_hsh : ∀ t l, (sh t l).Perm l) (fuel : Nat) (s : SudokuBoard) (t row col : Nat)
    (r : SolveResult) (_hinv : TrackerInv s) (hempty : EmptyFrom s (cellPos row col))
    (h : solve sh fuel s t row col = .ok r) (hfalse : r.found = false) :
    r.s.Board = s.Board ∧ r.s.RowNums = s.RowNums ∧ r.s.ColNums = s.ColNums := by
  rw [solve_restore sh fuel s t row col r hempty h hfalse]
  exact ⟨rfl, rfl, rfl⟩

set_option maxRecDepth 100000 in
/-- Witness of C9: from `deadEndGrid` the call `solve(7, 8)` places `9`, fails at
`(8, 8)`, undoes the placement and returns `false`. -/
theorem undo_on_failure_is_exact_witness :
    (resultOf (solve idShuffle 2 (stateOfGrid deadEndGrid) 0 7 8)).found = false ∧
    (resultOf (solve idShuffle 2 (stateOfGrid deadEndGrid) 0 7 8)).trace.length = 5 ∧
    (resultOf (solve idShuffle 2 (stateOfGrid deadEndGrid) 0 7 8)).s.Board
      = (stateOfGrid deadEndGrid).Board ∧
    (resultOf (solve idShuffle 2 (stateOfGrid deadEndGrid) 0 7 8)).s.RowNums
      = (stateOfGrid deadEndGrid).RowNums ∧
    (resultOf (solve idShuffle 2 (stateOfGrid deadEndGrid) 0 7 8)).s.ColNums
      = (stateOfGrid deadEndGrid).ColNums :=
  ⟨by decide, by decide,
    undo_on_failure_is_exact idShuffle (fun _ l => List.Perm.refl l) 2
      (stateOfGrid deadEndGrid) 0 7 8 _ (trackerInv_stateOfGrid _) emptyFrom_deadEnd
      (eq_ok_resultOf _ (by decide)) (by decide)⟩

/-! ### `generatePlayableSudoku` -/

theorem emptyCells_setCell (b : Fin 9 → Fin 9 → Int) (i j : Fin 9) (h : b i j ≠ 0) :
    emptyCells (setCell b i j 0) = emptyCells b + 1 := by
  unfold emptyCells
  have hins : Finset.univ.filter (fun p : Fin 9 × Fin 9 => setCell b i j 0 p.1 p.2 = 0) =
      insert (i, j) (Finset.univ.filter (fun p : Fin 9 × Fin 9 => b p.1 p.2 = 0)) := by
    ext p
    obtain ⟨x, y⟩ := p
    simp only [Finset.mem_filter, Finset.mem_univ, true_and, Finset.mem_insert, setCell,
      Prod.mk.injEq]
    by_cases hp : x = i ∧ y = j
    · simp [hp]
    · simp [hp]
  rw [hins, Finset.card_insert_of_not_mem]
  simp [h]

theorem clearLoop_spec (N : Int) (picks : List (Fin 9 × Fin 9)) :
    ∀ (count : Int) (s : SudokuBoard) (res : SudokuBoard × List (Fin 9 × Fin 9)),
      count ≤ N → clearLoop N picks count s = some res →
      (emptyCells res.1.Board : Int) = emptyCells s.Board + (N - count) ∧
      (∀ r c, res.1.Board r c = 0 ∨ res.1.Board r c = s.Board r c) ∧
      res.1.RowNums = s.RowNums ∧ res.1.ColNums = s.ColNums := by
  induction picks with
  | nil =>
    intro count s res hle h
    simp only [clearLoop] at h
    split at h
    · exact absurd h (by simp)
    · simp only [Option.some.injEq] at h
      subst h
      refine ⟨?_, fun r c => Or.inr rfl, rfl, rfl⟩
      have : N - count = 0 := by omega
      simp [this]
  | cons p picks ih =>
    intro count s res hle h
    obtain ⟨i, j⟩ := p
    simp only [clearLoop] at h
    by_cases hlt : count < N
    · simp only [hlt, if_true] at h
      by_cases hz : s.Board i j ≠ 0
      · rw [if_pos hz] at h
        obtain ⟨h1, h2, h3, h4⟩ := ih (count + 1) _ res (by omega) h
        simp only at h1 h2 h3 h4
        refine ⟨?_, ?_, h3, h4⟩
        · rw [h1, emptyCells_setCell _ _ _ hz]
          push_cast
          omega
        · intro r c
          rcases h2 r c with e | e
          · exact Or.inl e
          · simp only [setCell] at e
            by_cases hrc : r = i ∧ c = j
            · obtain ⟨rfl, rfl⟩ := hrc
              simp only [and_self, if_true] at e
              exact Or.inl e
            · simp only [hrc, if_false] at e
              exact Or.inr e
      · rw [if_neg hz] at h
        exact ih count s res hle h
    · simp only [hlt, if_false, Option.some.injEq] at h
      subst h
      refine ⟨?_, fun r c => Or.inr rfl, rfl, rfl⟩
      have : N - count = 0 := by omega
      simp [this]

theorem emptyCells_of_full (b : Fin 9 → Fin 9 → Int) (h : ∀ r c, b r c ≠ 0) : emptyCells b = 0 := by
  unfold emptyCells
  rw [Finset.card_eq_zero, Finset.filter_eq_empty_iff]
  intro p _
  exact h p.1 p.2

theorem sameCells_add_emptyCells (b b1 : Fin 9 → Fin 9 → Int) (hfull : ∀ r c, b r c ≠ 0)
    (h : ∀ r c, b1 r c = 0 ∨ b1 r c = b r c) : sameCells b b1 + emptyCells b1 = 81 := by
  unfold sameCells emptyCells
  have hiff : ∀ p : Fin 9 × Fin 9, b1 p.1 p.2 = b p.1 p.2 ↔ ¬ b1 p.1 p.2 = 0 := by
    intro p
    constructor
    · intro e z; exact hfull p.1 p.2 (e ▸ z)
    · intro nz
      rcases h p.1 p.2 with e | e
      · exact absurd e nz
      · exact e
  simp only [hiff]
  rw [add_comm, Finset.filter_card_add_filter_neg_card_eq_card]
  simp

theorem all_empty_of_emptyCells (b : Fin 9 → Fin 9 → Int) (h : emptyCells b = 81) (r c : Fin 9) :
    b r c = 0 := by
  unfold emptyCells at h
  have huniv : Finset.univ.filter (fun p : Fin 9 × Fin 9 => b p.1 p.2 = 0) = Finset.univ := by
    apply Finset.eq_univ_of_card
    rw [h]
    simp
  have : (r, c) ∈ Finset.univ.filter (fun p : Fin 9 × Fin 9 => b p.1 p.2 = 0) := by
    rw [huniv]; exact Finset.mem_univ _
  simpa using this

/-- C3: for a fully filled grid, `0 <= N <= 81` and picks on which the loop of
`generatePlayableSudoku(N)` finishes, the resulting grid has exactly `N` cells
equal to `0`, every cell is `0` or holds its input value, exactly `81 - N` cells
hold their input value, and for `N = 81` every cell is `0`. -/
theorem clearing_clears_exactly (s : SudokuBoard) (hfull : ∀ r c, s.Board r c ≠ 0)
    (N : Int) (h0 : 0 ≤ N) (_h81 : N ≤ 81) (picks : List (Fin 9 × Fin 9))
    (res : SudokuBoard × List (Fin 9 × Fin 9))
    (h : generatePlayableSudoku N picks s = some res) :
    (emptyCells res.1.Board : Int) = N ∧
    (∀ r c, res.1.Board r c = 0 ∨ res.1.Board r c = s.Board r c) ∧
    (sameCells s.Board res.1.Board : Int) = 81 - N ∧
    (N = 81 → ∀ r c, res.1.Board r c = 0) := by
  obtain ⟨h1, h2, _, _⟩ := clearLoop_spec N picks 0 s res h0 h
  rw [emptyCells_of_full s.Board hfull] at h1
  have hN : (emptyCells res.1.Board : Int) = N := by rw [h1]; simp
  have hsum := sameCells_add_emptyCells s.Board res.1.Board hfull h2
  refine ⟨hN, h2, by omega, ?_⟩
  intro hN81 r c
  exact all_empty_of_emptyCells _ (by omega) r c

/-- Witness of C3: clearing 2 cells of the solved grid `refGrid` with the picks
`(0,0), (0,0), (1,1), (2,2)`: the second pick hits an empty cell and is drawn
again, the last pick is not drawn. -/
theorem clearing_clears_exactly_witness :
    (generatePlayableSudoku 2 [(0, 0), (0, 0), (1, 1), (2, 2)] (stateOfGrid refGrid)).isSome
      = true ∧
    ∀ hs : (generatePlayableSudoku 2 [(0, 0), (0, 0), (1, 1), (2, 2)]
        (stateOfGrid refGrid)).isSome = true,
      (emptyCells ((generatePlayableSudoku 2 [(0, 0), (0, 0), (1, 1), (2, 2)]
        (stateOfGrid refGrid)).get hs).1.Board : Int) = 2 :=
  ⟨by decide, fun hs =>
    (clearing_clears_exactly (stateOfGrid refGrid)
      (fun r c => by have := refGrid_range r c; simp only [stateOfGrid]; omega)
      2 (by decide) (by decide) [(0, 0), (0, 0), (1, 1), (2, 2)] _
      (Option.some_get hs).symm).1⟩

/-- C4: clearing zero cells changes nothing.  On every board,
`generatePlayableSudoku(0)` returns the receiver as it was (every cell and both
trackers) and draws no pick; hence clearing `N` cells and then `0` more gives
what clearing `N` cells gives. -/
theorem clearing_zero_is_identity (s : SudokuBoard) (picks : List (Fin 9 × Fin 9)) :
    generatePlayableSudoku 0 picks s = some (s, picks) ∧
    ∀ N : Int, (generatePlayableSudoku N picks s).bind
      (fun res => generatePlayableSudoku 0 res.2 res.1) = generatePlayableSudoku N picks s := by
  have hzero : ∀ (s1 : SudokuBoard) (p1 : List (Fin 9 × Fin 9)),
      generatePlayableSudoku 0 p1 s1 = some (s1, p1) := by
    intro s1 p1
    cases p1 with
    | nil => simp [generatePlayableSudoku, clearLoop]
    | cons p ps =>
      obtain ⟨i, j⟩ := p
      simp [generatePlayableSudoku, clearLoop]
  refine ⟨hzero s picks, ?_⟩
  intro N
  cases h : generatePlayableSudoku N picks s with
  | none => rfl
  | some res => simp [Option.bind, hzero]

/-! ### `setCellsToClear` -/

theorem setCellsToClear_range (args : List String) :
    0 ≤ setCellsToClear args ∧ setCellsToClear args ≤ 81 := by
  simp only [setCellsToClear, defaultEmptyCells, boardSize]
  split
  · split
    · omega
    · split
      · omega
      · push_cast at *
        omega
  · omega

/-- C5: `setCellsToClear` returns `n` when there is exactly one positional
argument and `strconv.Atoi` parses it to an `n` with `0 <= n <= 81`, and the
default 40 in every other case: no argument, more than one, an argument that
does not parse ("abc"), or one out of range ("-5", "999"). -/
theorem setCellsToClear_spec :
    (∀ (prog arg : String) (n : Int), Atoi arg = some n → 0 ≤ n → n ≤ 81 →
      setCellsToClear [prog, arg] = n) ∧
    (∀ args : List String,
      (¬ ∃ (prog arg : String) (n : Int),
        args = [prog, arg] ∧ Atoi arg = some n ∧ 0 ≤ n ∧ n ≤ 81) →
      setCellsToClear args = 40) ∧
    (∀ prog : String,
      setCellsToClear [] = 40 ∧
      setCellsToClear [prog] = 40 ∧
      setCellsToClear [prog, "3", "4"] = 40 ∧
      setCellsToClear [prog, "abc"] = 40 ∧
      setCellsToClear [prog, "-5"] = 40 ∧
      setCellsToClear [prog, "999"] = 40 ∧
      setCellsToClear [prog, "82"] = 40 ∧
      setCellsToClear [prog, ""] = 40 ∧
      setCellsToClear [prog, "0"] = 0 ∧
      setCellsToClear [prog, "17"] = 17 ∧
      setCellsToClear [prog, "81"] = 81) := by
  have hpos : ∀ (prog arg : String) (n : Int), Atoi arg = some n → 0 ≤ n → n ≤ 81 →
      setCellsToClear [prog, arg] = n := by
    intro prog arg n hn h0 h81
    have h1 : ¬ n < 0 := by omega
    have h2 : ¬ n > 81 := by omega
    simp [setCellsToClear, hn, h1, h2]
  have hneg : ∀ (prog arg : String), (∀ n, Atoi arg = some n → ¬ (0 ≤ n ∧ n ≤ 81)) →
      setCellsToClear [prog, arg] = 40 := by
    intro prog arg h
    cases hn : Atoi arg with
    | none => simp [setCellsToClear, hn]
    | some n =>
      have := h n hn
      have h3 : n < 0 ∨ 81 < n := by omega
      simp [setCellsToClear, hn, h3]
  refine ⟨hpos, ?_, ?_⟩
  · intro args hno
    match args with
    | [] => simp [setCellsToClear]
    | [_] => simp [setCellsToClear]
    | [prog, arg] =>
      apply hneg
      intro n hn hr
      exact hno ⟨prog, arg, n, rfl, hn, hr.1, hr.2⟩
    | _ :: _ :: _ :: _ => simp [setCellsToClear]
  · intro prog
    have e1 : Atoi "abc" = none := by decide
    have e2 : Atoi "-5" = some (-5) := by decide
    have e3 : Atoi "999" = some 999 := by decide
    have e4 : Atoi "82" = some 82 := by decide
    have e5 : Atoi "" = none := by decide
    have e6 : Atoi "0" = some 0 := by decide
    have e7 : Atoi "17" = some 17 := by decide
    have e8 : Atoi "81" = some 81 := by decide
    refine ⟨by simp [setCellsToClear], by simp [setCellsToClear], by simp [setCellsToClear],
      ?_, ?_, ?_, ?_, ?_, ?_, ?_, ?_⟩
    · exact hneg _ _ (by rw [e1]; simp)
    · exact hneg _ _ (by rw [e2]; simp)
    · exact hneg _ _ (by rw [e3]; simp)
    · exact hneg _ _ (by rw [e4]; simp)
    · exact hneg _ _ (by rw [e5]; simp)
    · exact hpos _ _ _ e6 (by decide) (by decide)
    · exact hpos _ _ _ e7 (by decide) (by decide)
    · exact hpos _ _ _ e8 (by decide) (by decide)

/-! ### `main` -/

theorem generate_solved (sh : Nat → List Int → List Int) (hsh : ∀ t l, (sh t l).Perm l)
    (fuel t : Nat) (r : SolveResult)
    (h : generateSolvedSudoku sh fuel (initializeBoard zeroBoard) t = .ok r) :
    r.found = true ∧ ∀ i j, r.s.Board i j ≠ 0 := by
  have hpre := solvePre_initial
  have hfound : r.found = true :=
    solve_complete refGrid refGrid_range
      (fun r1 c1 r2 c2 => refGrid_no_clash r1 c1 r2 c2) sh hsh fuel _ t 0 0 r hpre.1.1
      (by simpa [cellPos] using hpre.2.1) (by intro r c hlt; simp [cellPos] at hlt) h
  have hpost := solve_post sh hsh fuel (initializeBoard zeroBoard) t 0 0 r
    (by simpa [cellPos] using hpre) h
  exact ⟨hfound, full_of_filledBefore r.s (hpost.2.1 hfound).2⟩

theorem getElem?_snoc2_zero {α : Type} (acc : List α) (a b : α) :
    (acc ++ [a] ++ [b])[acc.length]? = some a := by
  induction acc with
  | nil => rfl
  | cons x xs ih => simpa using ih

theorem getElem?_snoc2_one {α : Type} (acc : List α) (a b : α) :
    (acc ++ [a] ++ [b])[acc.length + 1]? = some b := by
  induction acc with
  | nil => rfl
  | cons x xs ih => simpa using ih

theorem getElem?_snoc2_lt {α : Type} (acc : List α) (a b : α) (i : Nat) (h : i < acc.length) :
    (acc ++ [a] ++ [b])[i]? = acc[i]? := by
  induction acc generalizing i with
  | nil => simp at h
  | cons x xs ih =>
    cases i with
    | zero => simp
    | succ i => simpa using ih i (by simpa using h)

theorem mainLoop_spec (sh : Nat → List Int → List Int) (hsh : ∀ t l, (sh t l).Perm l)
    (fuel : Nat) (N : Int) (hN : 0 ≤ N) :
    ∀ (is : List Nat) (t : Nat) (picks : List (Fin 9 × Fin 9)) (acc boards : List SudokuBoard),
      mainLoop sh fuel N is t picks acc = some boards →
      boards.length = acc.length + 2 * is.length ∧
      (∀ i, i < acc.length → boards[i]? = acc[i]?) ∧
      ∀ k, k < is.length → ∃ solved played,
        boards[acc.length + 2 * k]? = some solved ∧
        boards[acc.length + 2 * k + 1]? = some played ∧
        RunPair sh fuel N solved played := by
  intro is
  induction is with
  | nil =>
    intro t picks acc boards h
    simp only [mainLoop, Option.some.injEq] at h
    subst h
    exact ⟨by simp, fun _ _ => rfl, fun k hk => by simp at hk⟩
  | cons i0 is ih =>
    intro t picks acc boards h
    simp only [mainLoop] at h
    cases hg : generateSolvedSudoku sh fuel (initializeBoard zeroBoard) t with
    | error e => simp [hg] at h
    | ok r =>
      simp only [hg] at h
      cases hp : generatePlayableSudoku N picks r.s with
      | none => simp [hp] at h
      | some res =>
        obtain ⟨played, picks1⟩ := res
        simp only [hp] at h
        obtain ⟨hlen, hacc, hrest⟩ := ih r.t picks1 _ boards h
        obtain ⟨hfound, hfull⟩ := generate_solved sh hsh fuel t r hg
        obtain ⟨c1, c2, c3, _⟩ := clearLoop_spec N picks 0 r.s (played, picks1) hN hp
        simp only at c1 c2
        rw [emptyCells_of_full r.s.Board hfull] at c1
        have hsum := sameCells_add_emptyCells r.s.Board played.Board hfull c2
        have hpair : RunPair sh fuel N r.s played :=
          ⟨⟨t, r, hg, hfound, rfl⟩, hfull, by rw [c1]; simp, c2, by omega⟩
        have hs0 : boards[acc.length]? = some r.s := by
          rw [hacc acc.length (by simp), getElem?_snoc2_zero]
        have hs1 : boards[acc.length + 1]? = some played := by
          rw [hacc (acc.length + 1) (by simp), getElem?_snoc2_one]
        refine ⟨?_, ?_, ?_⟩
        · simp only [List.length_append, List.length_cons, List.length_nil] at hlen ⊢
          omega
        · intro i hi
          rw [hacc i (by simp; omega), getElem?_snoc2_lt _ _ _ _ hi]
        · intro k hk
          cases k with
          | zero => exact ⟨r.s, played, by simpa using hs0, by simpa using hs1, hpair⟩
          | succ k =>
            obtain ⟨solved, pl, e1, e2, e3⟩ := hrest k (by simpa using hk)
            refine ⟨solved, pl, ?_, ?_, e3⟩
            · rw [← e1]; congr 1
              simp only [List.length_append, List.length_cons, List.length_nil]
              omega
            · rw [← e2]; congr 1
              simp only [List.length_append, List.length_cons, List.length_nil]
              omega

/-- C6: when the run of `main` completes, for every outcome of the shuffles and
of the picks, the slice handed to `generateHTML` has exactly 6 boards, and for
`k = 0, 1, 2` the board at index `2k` is the solved grid of a run of the search
as the search left it (no empty cell), and the board at index `2k+1` is that grid
with exactly `clearedCells` cells set to `0` and every other cell unchanged. -/
theorem main_hands_over_pairs (args : List String) (sh : Nat → List Int → List Int)
    (hsh : ∀ t l, (sh t l).Perm l) (fuel : Nat) (picks : List (Fin 9 × Fin 9))
    (boards : List SudokuBoard) (h : mainPuzzles args sh fuel picks = some boards) :
    boards.length = 6 ∧
    ∀ k, k < 3 → ∃ solved played : SudokuBoard,
      boards[2 * k]? = some solved ∧ boards[2 * k + 1]? = some played ∧
      (∃ (t : Nat) (r : SolveResult),
        generateSolvedSudoku sh fuel (initializeBoard zeroBoard) t = .ok r ∧ r.found = true ∧
        solved = r.s) ∧
      (∀ i j, solved.Board i j ≠ 0) ∧
      (emptyCells played.Board : Int) = setCellsToClear args ∧
      (∀ i j, played.Board i j = 0 ∨ played.Board i j = solved.Board i j) ∧
      (sameCells solved.Board played.Board : Int) = 81 - setCellsToClear args := by
  obtain ⟨hlen, _, hpairs⟩ := mainLoop_spec sh hsh fuel (setCellsToClear args)
    (setCellsToClear_range args).1 [0, 1, 2] 0 picks [] boards h
  refine ⟨by simpa using hlen, ?_⟩
  intro k hk
  obtain ⟨solved, played, e1, e2, e3⟩ := hpairs k (by simpa using hk)
  exact ⟨solved, played, by simpa using e1, by simpa using e2, e3⟩

set_option maxRecDepth 100000 in
set_option maxHeartbeats 4000000 in
/-- Witness of C6: the run with argument "2", shuffles that follow `refShuffle`
and eight picks completes and hands over 6 boards. -/
theorem main_hands_over_pairs_witness :
    (mainPuzzles ["sudoku", "2"] refShuffle 82
      [(0, 0), (0, 0), (1, 1), (3, 3), (4, 4), (5, 5), (6, 6), (7, 7)]).isSome = true ∧
    ∀ hs : (mainPuzzles ["sudoku", "2"] refShuffle 82
      [(0, 0), (0, 0), (1, 1), (3, 3), (4, 4), (5, 5), (6, 6), (7, 7)]).isSome = true,
      ((mainPuzzles ["sudoku", "2"] refShuffle 82
        [(0, 0), (0, 0), (1, 1), (3, 3), (4, 4), (5, 5), (6, 6), (7, 7)]).get hs).length = 6 :=
  ⟨by decide!, fun hs =>
    (main_hands_over_pairs ["sudoku", "2"] refShuffle refShuffle_perm 82
      [(0, 0), (0, 0), (1, 1), (3, 3), (4, 4), (5, 5), (6, 6), (7, 7)] _
      (Option.some_get hs).symm).1⟩

/-! ### `generateHTMLTable` -/

theorem digitChar_eq_decimalDigit (k : Nat) (h : k < 10) : Nat.digitChar k = decimalDigit k := by
  interval_cases k <;> rfl

theorem toDigitsCore_eq_natDecimal (fuel : Nat) :
    ∀ (n : Nat) (ds : List Char), n < fuel →
      Nat.toDigitsCore 10 fuel n ds = natDecimal n ++ ds := by
  induction fuel with
  | zero => intro n ds h; omega
  | succ fuel ih =>
    intro n ds h
    rw [natDecimal]
    simp only [Nat.toDigitsCore]
    by_cases hlt : n < 10
    · have h0 : n / 10 = 0 := by omega
      have hm : n % 10 = n := by omega
      simp [h0, hm, hlt, digitChar_eq_decimalDigit n hlt]
    · have h0 : n / 10 ≠ 0 := by omega
      have hd := digitChar_eq_decimalDigit (n % 10) (by omega)
      simp only [h0, if_false, hlt]
      rw [ih (n / 10) _ (by omega), hd]
      simp

theorem natRepr_eq_natDecimal (n : Nat) : toString n = String.mk (natDecimal n) := by
  show Nat.repr n = _
  simp only [Nat.repr, Nat.toDigits, List.asString]
  rw [toDigitsCore_eq_natDecimal (n + 1) n [] (by omega)]
  simp

theorem sprintfD_eq_decimalText (d : Int) : sprintfD d = decimalText d := by
  unfold sprintfD decimalText
  cases d with
  | ofNat m =>
    have h : ¬ (Int.ofNat m < 0) := by simp
    rw [if_neg h]
    show toString m = _
    rw [natRepr_eq_natDecimal]
    rfl
  | negSucc m =>
    have h : Int.negSucc m < 0 := Int.negSucc_lt_zero m
    rw [if_pos h]
    show "-" ++ toString (m.succ) = _
    rw [natRepr_eq_natDecimal]
    rfl

theorem writeCell_eq (s : SudokuBoard) (i : Fin 9) (h : String) (j : Fin 9) :
    writeCell s i h j =
      h ++ (cellText (s.Board i j) ++ if j = 2 ∨ j = 5 then separatorCell else "") := by
  have hsep : ((j.val + 1) % subgridSize = 0 ∧ j.val < boardSize - 1) ↔ (j = 2 ∨ j = 5) := by
    revert j; decide
  simp only [writeCell, hsep, cellText, separatorCell, sprintfD_eq_decimalText]
  by_cases hz : s.Board i j = 0 <;> by_cases hj : j = 2 ∨ j = 5 <;>
    simp [hz, hj, String.append_assoc]

theorem colspan_text : sprintfD ((boardSize + subgridSize - 1 : Nat) : Int) = "11" := by
  decide

theorem writeRow_eq (s : SudokuBoard) (h : String) (i : Fin 9) :
    writeRow s h i =
      h ++ (rowText s.Board i ++ if i = 2 ∨ i = 5 then separatorRow else "") := by
  have hsep : ((i.val + 1) % subgridSize = 0 ∧ i.val < boardSize - 1) ↔ (i = 2 ∨ i = 5) := by
    revert i; decide
  simp only [writeRow, hsep, loopIndices, List.foldl, writeCell_eq, colspan_text, rowText,
    separatorRow]
  by_cases hi : i = 2 ∨ i = 5 <;> simp [hi, String.append_assoc]

/-- C19: `generateHTMLTable` is a function of `Board` alone and emits, between
the style block with `<table>` and `</table>`, nine cell rows in row order, each
of nine value cells in column order: a cell holding `0` is an empty `td` of class
`empty`, a cell holding `d ≠ 0` a `td` of empty class with the decimal text of
`d`; a separator `td` follows the 3rd and the 6th value cell of every row (not
the 9th), and a separator row of colspan 11 follows the 3rd and the 6th cell row
(not the 9th).  The decimal text is `decimalText`, defined from the digits and
not from the printing the code calls; the cells for `0`, `7`, `305` and `-12` are
spelled out. -/
theorem generateHTMLTable_renders_grid (s : SudokuBoard) :
    generateHTMLTable s = tableText s.Board ∧
    cellText 0 = "<td class=\"empty\"></td>" ∧
    cellText 7 = "<td class=\"\">7</td>" ∧
    cellText 305 = "<td class=\"\">305</td>" ∧
    cellText (-12) = "<td class=\"\">-12</td>" := by
  refine ⟨?_, ?_, ?_, ?_, ?_⟩
  · simp only [generateHTMLTable, loopIndices, List.foldl, writeRow_eq, tableText]
    simp [String.append_assoc]
  · rfl
  · have h : decimalText 7 = "7" := by
      simp [decimalText, natDecimal, decimalDigit]
    simp only [cellText, h]
    decide
  · have h : decimalText 305 = "305" := by
      simp [decimalText, natDecimal, decimalDigit]
    simp only [cellText, h]
    decide
  · have h : decimalText (-12) = "-12" := by
      simp [decimalText, natDecimal, decimalDigit]
    simp only [cellText, h]
    decide

/-! ### `generateHTML` -/

/-- C20: on a list of exactly 6 boards `generateHTML` returns without an index
fault (its index expressions are the positions `0..5`), and its output is, between
`<html><body>` and `</body></html>`, three flex rows of two tables each, the
tables being `generateHTMLTable` of the boards `0..5` in that order. -/
theorem generateHTML_six_tables (b0 b1 b2 b3 b4 b5 : SudokuBoard) :
    generateHTML [b0, b1, b2, b3, b4, b5] =
      .ok ("<html><body>" ++ flexRow b0 b1 ++ flexRow b2 b3 ++ flexRow b4 b5 ++
        "</body></html>") := by
  have e0 : [b0, b1, b2, b3, b4, b5][0 * 2 + 0]? = some b0 := rfl
  have e1 : [b0, b1, b2, b3, b4, b5][0 * 2 + 1]? = some b1 := rfl
  have e2 : [b0, b1, b2, b3, b4, b5][1 * 2 + 0]? = some b2 := rfl
  have e3 : [b0, b1, b2, b3, b4, b5][1 * 2 + 1]? = some b3 := rfl
  have e4 : [b0, b1, b2, b3, b4, b5][2 * 2 + 0]? = some b4 := rfl
  have e5 : [b0, b1, b2, b3, b4, b5][2 * 2 + 1]? = some b5 := rfl
  simp only [generateHTML, htmlRow, htmlCol, List.foldl, e0, e1, e2, e3, e4, e5, flexRow,
    flexItem, String.append_assoc]

/-! ### `intersection` -/

/-- C11: `intersection` returns the set intersection of the two sets within
`1..9`: a digit is in the result iff it is in `1..9` and in both sets, it is
there exactly once, and the result is strictly ascending.  The function reads
the two maps and returns only the new list, so neither set changes. -/
theorem intersection_is_set_intersection (slice1 slice2 : GoMap) :
    (∀ d : Int, d ∈ intersection slice1 slice2 ↔
      (1 ≤ d ∧ d ≤ 9) ∧ slice1.get d = true ∧ slice2.get d = true) ∧
    (∀ d : Int, d ∈ intersection slice1 slice2 → (intersection slice1 slice2).count d = 1) ∧
    (intersection slice1 slice2).Pairwise (fun a b => a < b) := by
  have hsorted : (intersection slice1 slice2).Pairwise (fun a b => a < b) := by
    unfold intersection
    apply List.Pairwise.sublist (List.filter_sublist _)
    unfold digits
    decide
  refine ⟨mem_intersection slice1 slice2, ?_, hsorted⟩
  intro d hd
  have hnodup : (intersection slice1 slice2).Nodup :=
    hsorted.imp (fun h => ne_of_lt h)
  exact List.count_eq_one_of_mem hnodup hd

/-! ### `isValid` on a candidate -/

/-- C14: for every board, every cell `(row, col)` in range and every candidate
`num` returned by `intersection(RowNums[row], ColNums[col])`, `isValid` returns
`true` exactly when `num` is in none of the nine cells `(r, c)` with
`r/3 = row/3` and `c/3 = col/3`; the test of the row set and the column set at
its end does not change the answer for a candidate. -/
theorem isValid_on_candidate (s : SudokuBoard) (row col : Fin 9) (num : Int)
    (hcand : num ∈ intersection (s.RowNums row) (s.ColNums col)) :
    isValid s num row.val col.val =
      .ok (decide (∀ r c : Fin 9, r.val / 3 = row.val / 3 → c.val / 3 = col.val / 3 →
        s.Board r c ≠ num)) := by
  obtain ⟨_, hR, hC⟩ := (mem_intersection _ _ _).1 hcand
  obtain ⟨b, hb, hiff⟩ := isValid_spec s num row col
  rw [hb]
  congr 1
  have hbox : ValidAt s num row col ↔
      ∀ r c : Fin 9, r.val / 3 = row.val / 3 → c.val / 3 = col.val / 3 → s.Board r c ≠ num := by
    constructor
    · intro hv r c h1 h2
      exact hv.1 r c ⟨h1.symm, h2.symm⟩
    · intro h
      exact ⟨fun r c hs => h r c hs.1.symm hs.2.symm, hR, hC⟩
  cases b with
  | false =>
    have : ¬ ValidAt s num row col := fun hv => by simpa using hiff.2 hv
    rw [hbox] at this
    exact (decide_eq_false this).symm
  | true =>
    have := hbox.1 (hiff.1 rfl)
    exact (decide_eq_true this).symm

/-- Witness of C14: in `deadEndGrid` the only candidate at `(7, 8)` is `9`, and
it is in no cell of the subgrid. -/
theorem isValid_on_candidate_witness :
    (9 : Int) ∈ intersection ((stateOfGrid deadEndGrid).RowNums 7)
      ((stateOfGrid deadEndGrid).ColNums 8) ∧
    isValid (stateOfGrid deadEndGrid) 9 7 8 =
      .ok (decide (∀ r c : Fin 9, r.val / 3 = (7 : Fin 9).val / 3 →
        c.val / 3 = (8 : Fin 9).val / 3 → (stateOfGrid deadEndGrid).Board r c ≠ 9)) :=
  ⟨by decide, isValid_on_candidate (stateOfGrid deadEndGrid) 7 8 9 (by decide)⟩

/-! ### Index safety -/

theorem isValid_no_fault (s : SudokuBoard) (num : Int) (row col : Fin 9) :
    isValid s num row.val col.val ≠ .error .indexOutOfRange := by
  obtain ⟨b, hb, _⟩ := isValid_spec s num row col
  rw [hb]
  simp

theorem tryNums_no_fault (next : SudokuBoard → Nat → Except Fault SolveResult) (row col : Fin 9)
    (hnext : ∀ s1 t1, next s1 t1 ≠ .error .indexOutOfRange) (nums : List Int)
    (s : SudokuBoard) (t : Nat) :
    tryNums next row col nums s t ≠ .error .indexOutOfRange := by
  induction nums generalizing s t with
  | nil => simp [tryNums]
  | cons num rest ih =>
    obtain ⟨b, hb, _⟩ := isValid_spec s num row col
    simp only [tryNums, hb]
    cases b with
    | false => exact ih s t
    | true =>
      simp only
      cases hn : next (place s row col num) t with
      | error e =>
        have := hnext (place s row col num) t
        rw [hn] at this
        simp only
        intro h
        apply this
        rw [Except.error.injEq] at h ⊢
        exact h
      | ok r1 =>
        simp only
        by_cases hf1 : r1.found = true
        · simp [hf1]
        · simp only [hf1, Bool.false_eq_true, if_false]
          have := ih (unplace r1.s row col num) r1.t
          cases h2 : tryNums next row col rest (unplace r1.s row col num) r1.t with
          | error e =>
            rw [h2] at this
            simpa using this
          | ok r2 => simp

theorem solve_no_fault (sh : Nat → List Int → List Int) (fuel : Nat) :
    ∀ (s : SudokuBoard) (t row col : Nat), row ≤ 9 → col ≤ 8 →
      solve sh fuel s t row col ≠ .error .indexOutOfRange := by
  induction fuel with
  | zero => intro s t row col _ _; simp [solve]
  | succ fuel ih =>
    intro s t row col hr hc
    rcases solve_succ_cases sh fuel s t row col with ⟨_, _, h1⟩ | ⟨r1, c1, _, h1⟩ | ⟨hn, _⟩
    · rw [h1]; simp
    · rw [h1]
      have := tryNums_no_fault (fun s1 t1 => solve sh fuel s1 t1 (r1.val + 1) c1.val) r1 c1
        (fun s1 t1 => ih s1 t1 (r1.val + 1) c1.val (by omega) (by omega))
        (sh t (intersection (s.RowNums r1) (s.ColNums c1))) s (t + 1)
      cases h2 : tryNums (fun s1 t1 => solve sh fuel s1 t1 (r1.val + 1) c1.val) r1 c1
          (sh t (intersection (s.RowNums r1) (s.ColNums c1))) s (t + 1) with
      | error e =>
        rw [h2] at this
        simpa using this
      | ok r2 => simp
    · exact absurd ⟨hr, hc⟩ hn

/-- C17: index safety of the search.  Whatever the shuffles, the board and the
recursion bound, no call reachable from `solve(0, 0)` takes the out-of-range
branch: `solve(0, 0)` never ends in an index fault, nor does any call
`solve(row, col)` with `row <= 9` and `col <= 8` (the calls the recursion makes),
nor `isValid` at a cell in range; the branch itself exists, a call with
`row = 10` takes it. -/
theorem search_has_no_index_fault (sh : Nat → List Int → List Int) (fuel : Nat)
    (s : SudokuBoard) (t : Nat) :
    generateSolvedSudoku sh fuel s t ≠ .error .indexOutOfRange ∧
    (∀ row col : Nat, row ≤ 9 → col ≤ 8 →
      solve sh fuel s t row col ≠ .error .indexOutOfRange) ∧
    (∀ (num : Int) (row col : Fin 9), isValid s num row.val col.val ≠ .error .indexOutOfRange) ∧
    solve sh (fuel + 1) s t 10 0 = .error .indexOutOfRange := by
  refine ⟨solve_no_fault sh fuel s t 0 0 (by omega) (by omega),
    fun row col hr hc => solve_no_fault sh fuel s t row col hr hc,
    fun num row col => isValid_no_fault s num row col, ?_⟩
  simp [solve]

/-! ### Termination -/

theorem tryNums_mono (next next1 : SudokuBoard → Nat → Except Fault SolveResult)
    (row col : Fin 9) (hnext : ∀ s1 t1 r, next s1 t1 = .ok r → next1 s1 t1 = .ok r)
    (nums : List Int) (s : SudokuBoard) (t : Nat) (r : SolveResult)
    (h : tryNums next row col nums s t = .ok r) : tryNums next1 row col nums s t = .ok r := by
  induction nums generalizing s t r with
  | nil => simpa [tryNums] using h
  | cons num rest ih =>
    obtain ⟨b, hb, _⟩ := isValid_spec s num row col
    simp only [tryNums, hb] at h ⊢
    cases b with
    | false => exact ih s t r h
    | true =>
      simp only at h ⊢
      cases hn : next (place s row col num) t with
      | error e => simp [hn] at h
      | ok r1 =>
        simp only [hn] at h
        simp only [hnext _ _ _ hn]
        by_cases hf1 : r1.found = true
        · simpa [hf1] using h
        · simp only [hf1, Bool.false_eq_true, if_false] at h ⊢
          cases h2 : tryNums next row col rest (unplace r1.s row col num) r1.t with
          | error e => simp [h2] at h
          | ok r2 =>
            simp only [h2] at h
            simp only [ih _ _ _ h2]
            exact h

theorem solve_out_of_range (sh : Nat → List Int → List Int) (fuel : Nat) (s : SudokuBoard)
    (t row col : Nat) (h : ¬ (row ≤ 9 ∧ col ≤ 8)) :
    solve sh (fuel + 1) s t row col = .error .indexOutOfRange := by
  by_cases hrow : row = 9
  · have hc : ¬ (col + 1 < 9) := by omega
    have hcol : col + 1 ≠ 9 := by omega
    simp [solve, hrow, hcol, hc]
  · have hc : ¬ (row < 9 ∧ col < 9) := by omega
    simp [solve, hrow, hc]

theorem solve_fuel_succ (sh : Nat → List Int → List Int) (fuel : Nat) :
    ∀ (s : SudokuBoard) (t row col : Nat) (r : SolveResult),
      solve sh fuel s t row col = .ok r → solve sh (fuel + 1) s t row col = .ok r := by
  induction fuel with
  | zero => intro s t row col r h; simp [solve] at h
  | succ fuel ih =>
    intro s t row col r h
    rcases solve_succ_cases sh fuel s t row col with ⟨_, _, h1⟩ | ⟨r1, c1, hpos, h1⟩ | ⟨_, h1⟩
    · rcases solve_succ_cases sh (fuel + 1) s t row col with
        ⟨_, _, h2⟩ | ⟨_, _, hpos2, _⟩ | ⟨hn, _⟩
      · rw [h1] at h; rw [h2]; exact h
      · simp only [cellPos] at hpos2; omega
      · omega
    · rcases solve_succ_cases sh (fuel + 1) s t row col with
        ⟨hr, hc, _⟩ | ⟨r2, c2, hpos2, h2⟩ | ⟨hn, _⟩
      · simp only [cellPos] at hpos; omega
      · obtain ⟨e1, e2⟩ := cellPos_inj r1 c1 r2 c2 (hpos.trans hpos2.symm)
        subst e1; subst e2
        rw [h1] at h
        rw [h2]
        cases h3 : tryNums (fun s1 t1 => solve sh fuel s1 t1 (r1.val + 1) c1.val) r1 c1
            (sh t (intersection (s.RowNums r1) (s.ColNums c1))) s (t + 1) with
        | error e => simp [h3] at h
        | ok r3 =>
          simp only [h3] at h
          rw [tryNums_mono _ (fun s1 t1 => solve sh (fuel + 1) s1 t1 (r1.val + 1) c1.val) r1 c1
            (fun s1 t1 r4 h4 => ih s1 t1 _ _ r4 h4) _ s (t + 1) r3 h3]
          exact h
      · rw [solve_out_of_range sh fuel s t row col hn] at h
        simp at h
    · rw [h1] at h; simp at h

theorem solve_fuel_le (sh : Nat → List Int → List Int) (fuel fuel1 : Nat) (hle : fuel ≤ fuel1)
    (s : SudokuBoard) (t row col : Nat) (r : SolveResult)
    (h : solve sh fuel s t row col = .ok r) : solve sh fuel1 s t row col = .ok r := by
  induction fuel1 with
  | zero =>
    have : fuel = 0 := by omega
    subst this; exact h
  | succ n ih =>
    by_cases hn : fuel ≤ n
    · exact solve_fuel_succ sh n s t row col r (ih hn)
    · have : fuel = n + 1 := by omega
      subst this; exact h

/-- C12: the search terminates.  For every outcome of the shuffles and every
board, `generateSolvedSudoku` returns once there is room for 82 nested calls of
`solve` (81 placements and the terminal call), a larger bound gives the same
result, and a call at the cell of place `k` in the order of the search returns
within `82 - k` nested calls, each recursive call being at the next place. -/
theorem search_terminates (sh : Nat → List Int → List Int) (s : SudokuBoard) (t fuel : Nat)
    (hfuel : 82 ≤ fuel) :
    (∃ r, generateSolvedSudoku sh 82 s t = .ok r ∧ generateSolvedSudoku sh fuel s t = .ok r) ∧
    (∀ row col : Nat, row ≤ 9 → col ≤ 8 →
      ∃ r, solve sh (82 - cellPos row col) s t row col = .ok r) := by
  constructor
  · obtain ⟨r, hr⟩ := solve_returns sh 82 s t 0 0 (by omega) (by omega)
      (by simp only [cellPos]; omega)
    exact ⟨r, hr, solve_fuel_le sh 82 fuel hfuel s t 0 0 r hr⟩
  · intro row col hr hc
    exact solve_returns sh _ s t row col hr hc (by simp only [cellPos]; omega)

/-- Witness of C12: a bound of 100 nested calls, shuffles that reverse the
candidates, the initialised board. -/
theorem search_terminates_witness :
    (∃ r, generateSolvedSudoku (fun _ l => l.reverse) 82 (initializeBoard zeroBoard) 0 = .ok r ∧
      generateSolvedSudoku (fun _ l => l.reverse) 100 (initializeBoard zeroBoard) 0 = .ok r) ∧
    (∀ row col : Nat, row ≤ 9 → col ≤ 8 →
      ∃ r, solve (fun _ l => l.reverse) (82 - cellPos row col) (initializeBoard zeroBoard) 0
        row col = .ok r) :=
  search_terminates (fun _ l => l.reverse) (initializeBoard zeroBoard) 0 100 (by decide)

/-! ### The order of the search -/

theorem filledPrefix_of_pre (s : SudokuBoard) (k : Nat) (hk : k ≤ 81) (hpre : SolvePre s k) :
    FilledPrefix s := ⟨k, hk, hpre.2.2, hpre.2.1⟩

theorem filledPrefix_of_full (s : SudokuBoard) (h : FilledBefore s 81) : FilledPrefix s := by
  refine ⟨81, le_refl _, h, ?_⟩
  intro r c hle
  simp only [cellPos] at hle
  omega

theorem tryNums_trace_prefix (next : SudokuBoard → Nat → Except Fault SolveResult)
    (row col : Fin 9)
    (hnext : ∀ s1 t1 r, SolvePre s1 (cellPos row.val col.val + 1) → next s1 t1 = .ok r →
      SolvePost s1 r ∧ ∀ x ∈ r.trace, FilledPrefix x)
    (nums : List Int) (hnums : ∀ n ∈ nums, 1 ≤ n ∧ n ≤ 9)
    (s : SudokuBoard) (t : Nat) (r : SolveResult)
    (hpre : SolvePre s (cellPos row.val col.val))
    (h : tryNums next row col nums s t = .ok r) : ∀ x ∈ r.trace, FilledPrefix x := by
  have hk : cellPos row.val col.val ≤ 81 := by simp only [cellPos]; omega
  have hs : FilledPrefix s := filledPrefix_of_pre s _ hk hpre
  induction nums generalizing t r with
  | nil =>
    simp only [tryNums, Except.ok.injEq] at h
    subst h
    intro x hx
    simp only [List.mem_singleton] at hx
    subst hx
    exact hs
  | cons num rest ih =>
    have hrest : ∀ n ∈ rest, 1 ≤ n ∧ n ≤ 9 := fun n hn => hnums n (List.mem_cons_of_mem _ hn)
    obtain ⟨hn1, hn9⟩ := hnums num (List.mem_cons_self _ _)
    obtain ⟨b, hb, hiff⟩ := isValid_spec s num row col
    simp only [tryNums, hb] at h
    cases b with
    | false => exact ih hrest t r h
    | true =>
      have hv := hiff.1 rfl
      have hpre1 := solvePre_place s row col num hpre hn1 hn9 hv
      simp only at h
      cases hn : next (place s row col num) t with
      | error e => simp [hn] at h
      | ok r1 =>
        obtain ⟨⟨_, hfound1, hfail1⟩, htr1⟩ := hnext _ _ _ hpre1 hn
        simp only [hn] at h
        by_cases hf1 : r1.found = true
        · simp only [hf1, if_true, Except.ok.injEq] at h
          subst h
          intro x hx
          simp only [List.mem_append, List.mem_singleton] at hx
          rcases hx with hx | hx
          · exact htr1 x hx
          · subst hx; exact filledPrefix_of_full _ (hfound1 hf1).2
        · simp only [hf1] at h
          have hr1 : r1.s = place s row col num := hfail1 (by simpa using hf1)
          rw [hr1, unplace_place s row col num (hpre.2.1 row col (le_refl _)) hv] at h
          cases h2 : tryNums next row col rest s r1.t with
          | error e => simp [h2] at h
          | ok r2 =>
            simp only [h2, Bool.false_eq_true, if_false, Except.ok.injEq] at h
            have htr2 := ih hrest r1.t r2 h2
            subst h
            intro x hx
            simp only [List.mem_append, List.mem_cons] at hx
            rcases hx with hx | hx | hx
            · exact htr1 x hx
            · subst hx; exact hs
            · exact htr2 x hx

theorem solve_trace_prefix (sh : Nat → List Int → List Int) (hsh : ∀ t l, (sh t l).Perm l)
    (fuel : Nat) :
    ∀ (s : SudokuBoard) (t row col : Nat) (r : SolveResult),
      SolvePre s (cellPos row col) → solve sh fuel s t row col = .ok r →
      ∀ x ∈ r.trace, FilledPrefix x := by
  induction fuel with
  | zero => intro s t row col r _ h; simp [solve] at h
  | succ fuel ih =>
    intro s t row col r hpre h
    rcases solve_succ_cases sh fuel s t row col with ⟨hr, hc, h1⟩ | ⟨r1, c1, hpos, h1⟩ | ⟨_, h1⟩
    · rw [h1] at h
      simp only [Except.ok.injEq] at h
      subst h
      have hk : cellPos row col = 81 := by simp only [cellPos]; omega
      rw [hk] at hpre
      intro x hx
      simp only [List.mem_singleton] at hx
      subst hx
      exact filledPrefix_of_pre _ 81 (le_refl _) hpre
    · rw [h1] at h
      rw [← hpos] at hpre
      cases h2 : tryNums (fun s1 t1 => solve sh fuel s1 t1 (r1.val + 1) c1.val) r1 c1
          (sh t (intersection (s.RowNums r1) (s.ColNums c1))) s (t + 1) with
      | error e => simp [h2] at h
      | ok r2 =>
        simp only [h2, Except.ok.injEq] at h
        have hnums : ∀ n ∈ sh t (intersection (s.RowNums r1) (s.ColNums c1)), 1 ≤ n ∧ n ≤ 9 := by
          intro n hn
          exact ((mem_intersection _ _ _).1 ((hsh t _).mem_iff.1 hn)).1
        have htr := tryNums_trace_prefix _ r1 c1
          (fun s1 t1 r3 hp1 hs1 =>
            have hp2 : SolvePre s1 (cellPos (r1.val + 1) c1.val) := by
              simpa [cellPos, Nat.add_assoc] using hp1
            ⟨solve_post sh hsh fuel s1 t1 (r1.val + 1) c1.val r3 hp2 hs1,
              ih s1 t1 (r1.val + 1) c1.val r3 hp2 hs1⟩)
          _ hnums s (t + 1) r2 hpre h2
        subst h
        intro x hx
        simp only [List.mem_cons] at hx
        rcases hx with hx | hx
        · subst hx
          exact filledPrefix_of_pre _ _ (by simp only [cellPos]; omega) hpre
        · exact htr x hx
    · rw [h1] at h
      simp at h

theorem solve_in_range_eq (sh : Nat → List Int → List Int) (fuel : Nat) (s : SudokuBoard)
    (t : Nat) (row col : Fin 9) :
    solve sh (fuel + 1) s t row.val col.val =
      (match tryNums (fun s1 t1 => solve sh fuel s1 t1 (row.val + 1) col.val) row col
          (sh t (intersection (s.RowNums row) (s.ColNums col))) s (t + 1) with
        | .error e => .error e
        | .ok r => .ok ⟨r.found, r.s, r.t, s :: r.trace⟩) := by
  have hr := row.isLt
  have hc := col.isLt
  have h9 : row.val ≠ 9 := by omega
  simp [solve, h9, hr, hc]

theorem solve_wrap_eq (sh : Nat → List Int → List Int) (fuel : Nat) (s : SudokuBoard)
    (t col : Nat) (hcol : col < 8) :
    solve sh fuel s t 9 col = solve sh fuel s t 0 (col + 1) := by
  cases fuel with
  | zero => simp [solve]
  | succ fuel =>
    have h1 : col + 1 ≠ 9 := by omega
    have h2 : col + 1 < 9 := by omega
    simp [solve, h1, h2]

set_option maxRecDepth 100000 in
set_option maxHeartbeats 4000000 in
/-- C13 as stated fails: in the run whose shuffles follow `refShuffle` a logged
state (the receiver when the call for the cell `(2, 0)` is entered) has the cell
`(1, 0)` filled while the cell `(0, 1)`, which comes before it in row-major
order, is empty. -/
theorem row_major_order_counterexample :
    ¬ ∀ x ∈ (resultOf (generateSolvedSudoku refShuffle 82 (initializeBoard zeroBoard) 0)).trace,
      FilledInRowMajorOrder x := by
  have hany :
      (resultOf (generateSolvedSudoku refShuffle 82 (initializeBoard zeroBoard) 0)).trace.any
        (fun x => decide (x.Board 1 0 ≠ 0 ∧ x.Board 0 1 = 0)) = true := by
    decide!
  intro hall
  obtain ⟨x, hx, hdec⟩ := List.any_eq_true.1 hany
  have hcells := of_decide_eq_true hdec
  exact hall x hx 1 0 0 1 hcells.1 (by decide) hcells.2

/-- C13, amended: the search visits the cells column by column.  The call of
`solve` at a cell `(row, col)` in range makes its recursive calls at
`(row+1, col)`; the call with `row = 9` is the call for `(0, col+1)`; and in every
state the search from the all-empty initialised board logs, the filled cells are
exactly the first `k` cells of that order for some `k`, so that when the cell
`(row, col)` is being filled every cell of the columns `0..col-1` and the cells
`(0..row-1, col)` are filled and no other cell is. -/
theorem search_visits_cells_column_major (sh : Nat → List Int → List Int)
    (hsh : ∀ t l, (sh t l).Perm l) (fuel t : Nat) (r : SolveResult)
    (h : generateSolvedSudoku sh fuel (initializeBoard zeroBoard) t = .ok r) :
    (∀ (f : Nat) (s1 : SudokuBoard) (t1 : Nat) (row col : Fin 9),
      solve sh (f + 1) s1 t1 row.val col.val =
        (match tryNums (fun s2 t2 => solve sh f s2 t2 (row.val + 1) col.val) row col
            (sh t1 (intersection (s1.RowNums row) (s1.ColNums col))) s1 (t1 + 1) with
          | .error e => .error e
          | .ok r1 => .ok ⟨r1.found, r1.s, r1.t, s1 :: r1.trace⟩)) ∧
    (∀ (f : Nat) (s1 : SudokuBoard) (t1 col : Nat), col < 8 →
      solve sh f s1 t1 9 col = solve sh f s1 t1 0 (col + 1)) ∧
    (∀ x ∈ r.trace, ∃ k, k ≤ 81 ∧
      (∀ i j : Fin 9, j.val * 9 + i.val < k → x.Board i j ≠ 0) ∧
      (∀ i j : Fin 9, k ≤ j.val * 9 + i.val → x.Board i j = 0)) := by
  refine ⟨fun f s1 t1 row col => solve_in_range_eq sh f s1 t1 row col,
    fun f s1 t1 col hcol => solve_wrap_eq sh f s1 t1 col hcol, ?_⟩
  intro x hx
  exact solve_trace_prefix sh hsh fuel (initializeBoard zeroBoard) t 0 0 r
    (by simpa [cellPos] using solvePre_initial) h x hx

set_option maxRecDepth 100000 in
set_option maxHeartbeats 4000000 in
/-- Witness of the amended C13: the run whose shuffles follow `rotateShuffle`. -/
theorem search_visits_cells_column_major_witness :
    (resultOf (generateSolvedSudoku rotateShuffle 82 (initializeBoard zeroBoard) 0)).found
      = true ∧
    ∀ x ∈ (resultOf (generateSolvedSudoku rotateShuffle 82 (initializeBoard zeroBoard) 0)).trace,
      ∃ k, k ≤ 81 ∧
        (∀ i j : Fin 9, j.val * 9 + i.val < k → x.Board i j ≠ 0) ∧
        (∀ i j : Fin 9, k ≤ j.val * 9 + i.val → x.Board i j = 0) := by
  have hfound :
      (resultOf (generateSolvedSudoku rotateShuffle 82 (initializeBoard zeroBoard) 0)).found
        = true := by
    decide!
  exact ⟨hfound, (search_visits_cells_column_major rotateShuffle
    (fun t l => List.rotate_perm l (3 * t)) 82 0 _ (eq_ok_of_found _ hfound)).2.2⟩

/-! ### The clearing loop cannot stall on a fresh grid -/

theorem clearLoop_cons (N : Int) (p : Fin 9 × Fin 9) (picks : List (Fin 9 × Fin 9))
    (count : Int) (s : SudokuBoard) (h : count < N) :
    clearLoop N (p :: picks) count s =
      clearLoop N picks (clearStep (count, s) p).1 (clearStep (count, s) p).2 := by
  obtain ⟨i, j⟩ := p
  simp only [clearLoop, h, if_true, clearStep]
  by_cases hz : s.Board i j ≠ 0
  · rw [if_pos hz, if_pos hz]
  · rw [if_neg hz, if_neg hz]

theorem clearStep_of_empty (st : Int × SudokuBoard) (p : Fin 9 × Fin 9)
    (h : st.2.Board p.1 p.2 = 0) : clearStep st p = st := by
  simp [clearStep, h]

theorem clearStep_inv (st : Int × SudokuBoard) (p : Fin 9 × Fin 9)
    (h : (emptyCells st.2.Board : Int) = st.1) :
    (emptyCells (clearStep st p).2.Board : Int) = (clearStep st p).1 := by
  unfold clearStep
  by_cases hz : st.2.Board p.1 p.2 ≠ 0
  · rw [if_pos hz]
    simp only
    rw [emptyCells_setCell _ _ _ hz]
    push_cast
    omega
  · rw [if_neg hz]
    exact h

theorem foldl_clearStep_inv (picks : List (Fin 9 × Fin 9)) (st : Int × SudokuBoard)
    (h : (emptyCells st.2.Board : Int) = st.1) :
    (emptyCells (picks.foldl clearStep st).2.Board : Int) = (picks.foldl clearStep st).1 := by
  induction picks generalizing st with
  | nil => exact h
  | cons p picks ih => exact ih _ (clearStep_inv st p h)

theorem emptyCells_of_all_empty (b : Fin 9 → Fin 9 → Int) (h : ∀ i j, b i j = 0) :
    emptyCells b = 81 := by
  unfold emptyCells
  rw [Finset.filter_true_of_mem (fun p _ => h p.1 p.2)]
  simp

theorem exists_filled_of_lt (b : Fin 9 → Fin 9 → Int) (h : emptyCells b < 81) :
    ∃ i j, b i j ≠ 0 := by
  by_contra hno
  push_neg at hno
  rw [emptyCells_of_all_empty b hno] at h
  omega

theorem clearLoop_fair (N : Int) (hN : N ≤ 81) (f : Nat → Fin 9 × Fin 9)
    (hfair : ∀ n p, ∃ m, n ≤ m ∧ f m = p) (d : Nat) :
    ∀ (count : Int) (s : SudokuBoard) (n : Nat), N - count ≤ d →
      (emptyCells s.Board : Int) = count →
      ∃ L res, clearLoop N ((List.range' n L).map f) count s = some res := by
  induction d with
  | zero =>
    intro count s n hd _
    refine ⟨0, (s, []), ?_⟩
    have : ¬ count < N := by omega
    simp [clearLoop, this]
  | succ d ih =>
    intro count s n hd hinv
    by_cases hlt : count < N
    · obtain ⟨i, j, hij⟩ := exists_filled_of_lt s.Board (by omega)
      obtain ⟨m, hm, hfm⟩ := hfair n (i, j)
      have inner : ∀ (k n1 : Nat), n1 + k = m →
          ∃ L res, clearLoop N ((List.range' n1 L).map f) count s = some res := by
        intro k
        induction k with
        | zero =>
          intro n1 hn1
          have hn1m : n1 = m := by omega
          subst hn1m
          have hz : s.Board (f n1).1 (f n1).2 ≠ 0 := by rw [hfm]; exact hij
          obtain ⟨L, res, hres⟩ := ih (count + 1)
            { s with Board := setCell s.Board (f n1).1 (f n1).2 0 } (n1 + 1) (by omega)
            (by
              simp only
              rw [emptyCells_setCell _ _ _ hz]
              push_cast
              omega)
          refine ⟨L + 1, res, ?_⟩
          rw [List.range'_succ, List.map_cons, clearLoop_cons N _ _ _ _ hlt]
          simp only [clearStep]
          rw [if_pos hz]
          exact hres
        | succ k ihk =>
          intro n1 hn1
          by_cases hz : s.Board (f n1).1 (f n1).2 ≠ 0
          · obtain ⟨L, res, hres⟩ := ih (count + 1)
              { s with Board := setCell s.Board (f n1).1 (f n1).2 0 } (n1 + 1) (by omega)
              (by
                simp only
                rw [emptyCells_setCell _ _ _ hz]
                push_cast
                omega)
            refine ⟨L + 1, res, ?_⟩
            rw [List.range'_succ, List.map_cons, clearLoop_cons N _ _ _ _ hlt]
            simp only [clearStep]
            rw [if_pos hz]
            exact hres
          · obtain ⟨L, res, hres⟩ := ihk (n1 + 1) (by omega)
            refine ⟨L + 1, res, ?_⟩
            rw [List.range'_succ, List.map_cons, clearLoop_cons N _ _ _ _ hlt]
            simp only [clearStep]
            rw [if_neg hz]
            exact hres
      exact inner (m - n) n (by omega)
    · refine ⟨0, (s, []), ?_⟩
      simp [clearLoop, hlt]

/-- C15: clearing a freshly solved grid cannot stall.  For a fully filled input
grid and `N <= 81`: a turn of the loop of `generatePlayableSudoku` is `clearStep`;
after any number of turns the number of empty cells equals `count`; a pick of an
empty cell changes neither `count` nor the grid; whenever `count < N` some cell is
non-empty; and on every sequence of picks that hits each of the 81 cells again and
again, the loop ends after finitely many picks. -/
theorem clearing_cannot_stall (s : SudokuBoard) (hfull : ∀ r c, s.Board r c ≠ 0) (N : Int)
    (hN : N ≤ 81) :
    (∀ (p : Fin 9 × Fin 9) (picks : List (Fin 9 × Fin 9)) (count : Int) (s1 : SudokuBoard),
      count < N → clearLoop N (p :: picks) count s1 =
        clearLoop N picks (clearStep (count, s1) p).1 (clearStep (count, s1) p).2) ∧
    (∀ picks : List (Fin 9 × Fin 9),
      (emptyCells (picks.foldl clearStep (0, s)).2.Board : Int)
        = (picks.foldl clearStep (0, s)).1) ∧
    (∀ (st : Int × SudokuBoard) (p : Fin 9 × Fin 9),
      st.2.Board p.1 p.2 = 0 → clearStep st p = st) ∧
    (∀ picks : List (Fin 9 × Fin 9), (picks.foldl clearStep (0, s)).1 < N →
      ∃ i j, (picks.foldl clearStep (0, s)).2.Board i j ≠ 0) ∧
    (∀ f : Nat → Fin 9 × Fin 9, (∀ n p, ∃ m, n ≤ m ∧ f m = p) →
      ∃ L res, generatePlayableSudoku N ((List.range L).map f) s = some res) := by
  have h0 : (emptyCells (0, s).2.Board : Int) = (0, s).1 := by
    simp [emptyCells_of_full s.Board hfull]
  refine ⟨fun p picks count s1 h => clearLoop_cons N p picks count s1 h,
    fun picks => foldl_clearStep_inv picks (0, s) h0,
    fun st p h => clearStep_of_empty st p h, ?_, ?_⟩
  · intro picks hlt
    have hinv := foldl_clearStep_inv picks (0, s) h0
    exact exists_filled_of_lt _ (by omega)
  · intro f hfair
    obtain ⟨L, res, hres⟩ := clearLoop_fair N hN f hfair (N.toNat) 0 s 0 (by omega)
      (by simpa using h0)
    refine ⟨L, res, ?_⟩
    rw [List.range_eq_range']
    exact hres

/-- Witness of C15: the solved grid `refGrid` with `N = 81`. -/
theorem clearing_cannot_stall_witness :
    (∀ picks : List (Fin 9 × Fin 9),
      (emptyCells (picks.foldl clearStep (0, stateOfGrid refGrid)).2.Board : Int)
        = (picks.foldl clearStep (0, stateOfGrid refGrid)).1) ∧
    (∀ f : Nat → Fin 9 × Fin 9, (∀ n p, ∃ m, n ≤ m ∧ f m = p) →
      ∃ L res, generatePlayableSudoku 81 ((List.range L).map f) (stateOfGrid refGrid)
        = some res) :=
  ⟨(clearing_cannot_stall (stateOfGrid refGrid)
      (fun r c => by have := refGrid_range r c; simp only [stateOfGrid]; omega)
      81 (by decide)).2.1,
    (clearing_cannot_stall (stateOfGrid refGrid)
      (fun r c => by have := refGrid_range r c; simp only [stateOfGrid]; omega)
      81 (by decide)).2.2.2.2⟩

/-! ### The clearing loop on an empty grid -/

theorem emptyCells_le (b : Fin 9 → Fin 9 → Int) : emptyCells b ≤ 81 := by
  unfold emptyCells
  have := Finset.card_filter_le (Finset.univ : Finset (Fin 9 × Fin 9))
    (fun p : Fin 9 × Fin 9 => b p.1 p.2 = 0)
  simpa using this

theorem clearLoop_all_empty (s : SudokuBoard) (hempty : ∀ i j, s.Board i j = 0) (N : Int)
    (picks : List (Fin 9 × Fin 9)) (count : Int) :
    clearLoop N picks count s = if count < N then none else some (s, picks) := by
  induction picks with
  | nil => simp only [clearLoop]
  | cons p picks ih =>
    obtain ⟨i, j⟩ := p
    simp only [clearLoop]
    by_cases hlt : count < N
    · have hz : ¬ s.Board i j ≠ 0 := by simp [hempty i j]
      rw [if_pos hlt, if_neg hz, ih, if_pos hlt, if_pos hlt]
    · rw [if_neg hlt, if_neg hlt]

/-- C16 as stated fails: the loop has no guard.  On the all-empty board a request
for one cell never ends, whatever the picks; and on the solved grid `refGrid` a
request for 82 cells never ends either (after 81 cleared cells every cell is `0`
and `count` is still below 82). -/
theorem clearing_has_no_guard_counterexample :
    (¬ ∃ picks : List (Fin 9 × Fin 9),
      (generatePlayableSudoku 1 picks zeroBoard).isSome = true) ∧
    (¬ ∃ picks : List (Fin 9 × Fin 9),
      (generatePlayableSudoku 82 picks (stateOfGrid refGrid)).isSome = true) := by
  constructor
  · rintro ⟨picks, h⟩
    rw [generatePlayableSudoku, clearLoop_all_empty zeroBoard (fun _ _ => rfl)] at h
    simp at h
  · rintro ⟨picks, h⟩
    obtain ⟨res, hres⟩ := Option.isSome_iff_exists.1 h
    obtain ⟨h1, _, _, _⟩ := clearLoop_spec 82 picks 0 (stateOfGrid refGrid) res (by decide) hres
    have hle := emptyCells_le res.1.Board
    have hfull : ∀ r c, (stateOfGrid refGrid).Board r c ≠ 0 := by
      intro r c
      have := refGrid_range r c
      simp only [stateOfGrid]
      omega
    rw [emptyCells_of_full _ hfull] at h1
    push_cast at h1
    omega

/-- C16, amended: when every cell of the grid is `0`, the loop of
`generatePlayableSudoku` ends exactly when `count` has already reached the
requested number; it then returns at once, the grid untouched and no pick drawn.
With `count` below the request it never ends, whatever the picks: there is no
guard against the retry. -/
theorem clearing_on_empty_grid (s : SudokuBoard) (hempty : ∀ i j, s.Board i j = 0) (N : Int)
    (picks : List (Fin 9 × Fin 9)) (count : Int) :
    ((clearLoop N picks count s).isSome = true ↔ N ≤ count) ∧
    (N ≤ count → clearLoop N picks count s = some (s, picks)) ∧
    (count < N → clearLoop N picks count s = none) ∧
    ((generatePlayableSudoku N picks s).isSome = true ↔ N ≤ 0) := by
  have hc := clearLoop_all_empty s hempty N picks count
  have h0 := clearLoop_all_empty s hempty N picks 0
  refine ⟨?_, ?_, ?_, ?_⟩
  · rw [hc]
    by_cases hlt : count < N
    · simp [hlt]
    · simp only [hlt, if_false, Option.isSome_some, true_iff]
      omega
  · intro hle
    have : ¬ count < N := by omega
    rw [hc, if_neg this]
  · intro hlt
    rw [hc, if_pos hlt]
  · rw [generatePlayableSudoku, h0]
    by_cases hlt : (0 : Int) < N
    · simp [hlt]
    · simp only [hlt, if_false, Option.isSome_some, true_iff]
      omega

/-- Witness of the amended C16: the all-empty board, a request for 5 cells, the
loop entered with `count = 0` and two picks at hand. -/
theorem clearing_on_empty_grid_witness :
    ((clearLoop 5 [(0, 0), (1, 1)] 0 zeroBoard).isSome = true ↔ (5 : Int) ≤ 0) ∧
    ((5 : Int) ≤ 0 → clearLoop 5 [(0, 0), (1, 1)] 0 zeroBoard = some (zeroBoard, [(0, 0), (1, 1)])) ∧
    ((0 : Int) < 5 → clearLoop 5 [(0, 0), (1, 1)] 0 zeroBoard = none) ∧
    ((generatePlayableSudoku 5 [(0, 0), (1, 1)] zeroBoard).isSome = true ↔ (5 : Int) ≤ 0) :=
  clearing_on_empty_grid zeroBoard (fun _ _ => rfl) 5 [(0, 0), (1, 1)] 0

/-! ### Clearing leaves the trackers alone -/

theorem solved_sets_empty (sh : Nat → List Int → List Int) (hsh : ∀ t l, (sh t l).Perm l)
    (fuel t : Nat) (r : SolveResult)
    (h : generateSolvedSudoku sh fuel (initializeBoard zeroBoard) t = .ok r)
    (i : Fin 9) (d : Int) (h1 : 1 ≤ d) (h9 : d ≤ 9) :
    (r.s.RowNums i).get d = false ∧ (r.s.ColNums i).get d = false ∧
    (r.s.RowNums i).hasKey d = false ∧ (r.s.ColNums i).hasKey d = false := by
  obtain ⟨hfound, hfull⟩ := generate_solved sh hsh fuel t r h
  have hpost := solve_post sh hsh fuel (initializeBoard zeroBoard) t 0 0 r
    (by simpa [cellPos] using solvePre_initial) h
  obtain ⟨⟨ht, hg, hw⟩, _⟩ := hpost.2.1 hfound
  obtain ⟨c, hc, _⟩ := rowsComplete_of_full _ hg hfull i d h1 h9
  obtain ⟨r1, hr1, _⟩ := colsComplete_of_full _ hg hfull i d h1 h9
  have hR : (r.s.RowNums i).get d = false := by
    cases hget : (r.s.RowNums i).get d with
    | false => rfl
    | true => exact absurd hc ((ht i d h1 h9).1.1 hget c)
  have hC : (r.s.ColNums i).get d = false := by
    cases hget : (r.s.ColNums i).get d with
    | false => rfl
    | true => exact absurd hr1 ((ht i d h1 h9).2.1 hget r1)
  exact ⟨hR, hC, by rw [(hw i d).1, hR], by rw [(hw i d).2, hC]⟩

/-- C18: `generatePlayableSudoku` changes only `Board`.  For every board, `N` and
picks, `RowNums` and `ColNums` are after the clearing what they were before, and
a cell keeps its value or goes from a non-zero value to `0`.  So when the board
is a solved grid left by the search, whose sets hold no digit, the sets still
hold no digit after the clearing: the digit of a cleared cell is not listed for
its row and column. -/
theorem clearing_changes_only_board (s : SudokuBoard) (N : Int) (picks : List (Fin 9 × Fin 9))
    (res : SudokuBoard × List (Fin 9 × Fin 9))
    (h : generatePlayableSudoku N picks s = some res) :
    res.1.RowNums = s.RowNums ∧ res.1.ColNums = s.ColNums ∧
    (∀ i j, res.1.Board i j = s.Board i j ∨ (s.Board i j ≠ 0 ∧ res.1.Board i j = 0)) ∧
    (∀ (sh : Nat → List Int → List Int) (fuel t : Nat) (r : SolveResult),
      (∀ t1 l, (sh t1 l).Perm l) →
      generateSolvedSudoku sh fuel (initializeBoard zeroBoard) t = .ok r → s = r.s →
      ∀ (i : Fin 9) (d : Int), 1 ≤ d → d ≤ 9 →
        (res.1.RowNums i).get d = false ∧ (res.1.ColNums i).get d = false ∧
        (res.1.RowNums i).hasKey d = false ∧ (res.1.ColNums i).hasKey d = false) := by
  by_cases hN : 0 ≤ N
  · obtain ⟨_, h2, h3, h4⟩ := clearLoop_spec N picks 0 s res hN h
    refine ⟨h3, h4, ?_, ?_⟩
    · intro i j
      rcases h2 i j with e | e
      · by_cases hz : s.Board i j = 0
        · left; rw [e, hz]
        · right; exact ⟨hz, e⟩
      · left; exact e
    · intro sh fuel t r hsh hg hs i d h1 h9
      rw [h3, h4, hs]
      exact solved_sets_empty sh hsh fuel t r hg i d h1 h9
  · have hres : res = (s, picks) := by
      have hlt : ¬ (0 : Int) < N := by omega
      cases picks with
      | nil =>
        simp only [generatePlayableSudoku, clearLoop, hlt, if_false, Option.some.injEq] at h
        exact h.symm
      | cons p ps =>
        obtain ⟨i, j⟩ := p
        simp only [generatePlayableSudoku, clearLoop, hlt, if_false, Option.some.injEq] at h
        exact h.symm
    subst hres
    refine ⟨rfl, rfl, fun i j => Or.inl rfl, ?_⟩
    intro sh fuel t r hsh hg hs i d h1 h9
    simp only [hs]
    exact solved_sets_empty sh hsh fuel t r hg i d h1 h9

set_option maxRecDepth 100000 in
set_option maxHeartbeats 4000000 in
/-- Witness of C18: the grid left by the run whose shuffles follow `refShuffle`,
one cell to clear, the pick `(0, 0)`: the cell held `1`, and after the clearing
`1` is still absent from the set of row 0. -/
theorem clearing_changes_only_board_witness :
    (generatePlayableSudoku 1 [(0, 0)]
      (resultOf (generateSolvedSudoku refShuffle 82 (initializeBoard zeroBoard) 0)).s).isSome
      = true ∧
    ∀ hs : (generatePlayableSudoku 1 [(0, 0)]
      (resultOf (generateSolvedSudoku refShuffle 82 (initializeBoard zeroBoard) 0)).s).isSome
        = true,
      (((generatePlayableSudoku 1 [(0, 0)]
        (resultOf (generateSolvedSudoku refShuffle 82 (initializeBoard zeroBoard) 0)).s).get
          hs).1.RowNums 0).get 1 = false := by
  have hsome : (generatePlayableSudoku 1 [(0, 0)]
      (resultOf (generateSolvedSudoku refShuffle 82 (initializeBoard zeroBoard) 0)).s).isSome
      = true := by
    decide!
  have hfound :
      (resultOf (generateSolvedSudoku refShuffle 82 (initializeBoard zeroBoard) 0)).found
        = true := by
    decide!
  refine ⟨hsome, fun hs => ?_⟩
  exact ((clearing_changes_only_board
    (resultOf (generateSolvedSudoku refShuffle 82 (initializeBoard zeroBoard) 0)).s 1 [(0, 0)] _
    (Option.some_get hs).symm).2.2.2 refShuffle 82 0 _ refShuffle_perm
    (eq_ok_of_found _ hfound) rfl 0 1 (by decide) (by decide)).1

end SudokuMaker
